import Mathlib

set_option autoImplicit false

/-
  Verification development for the Express + PostgreSQL users API.

  The definitions below are a shallow embedding, in Lean, of the request
  pipeline of the repository: the security middleware chain
  (src/middleware/security.js), the field validators
  (middleware/validators.js), the users router (src/routes/users.js) and
  the application wiring (index.js).  JavaScript strings are Lean
  strings, JSON-like request/response payloads are the `JValue` type,
  the PostgreSQL table is a list of `User` records, and SQL statements
  executed through the connection pool are modelled semantically, with a
  trace of the store operations each request performs.
-/

namespace PostgresApi

/-! ### JavaScript string primitives -/

/-- The single-quote character. -/
def sq : Char := Char.ofNat 39

/-- The double-quote character. -/
def dq : Char := Char.ofNat 34

/-- The backtick character. -/
def btick : Char := Char.ofNat 96

/-- The backslash character. -/
def bslash : Char := Char.ofNat 92

/-- JavaScript whitespace, as matched by a regex `\s` class and by
`String.prototype.trim` (ASCII part plus no-break space). -/
def isSpaceJS (c : Char) : Bool :=
  c = ' ' || c = Char.ofNat 9 || c = Char.ofNat 10 || c = Char.ofNat 11 ||
  c = Char.ofNat 12 || c = Char.ofNat 13 || c = Char.ofNat 160

/-- A regex word character (`\w`), used for `\b` word boundaries. -/
def isWordChar (c : Char) : Bool :=
  c.isAlpha || c.isDigit || c = '_'

/-- JavaScript `String.prototype.trim`. -/
def trimJS (s : String) : String :=
  ⟨(s.data.dropWhile isSpaceJS).reverse.dropWhile isSpaceJS |>.reverse⟩

/-- Collapse every run of whitespace to one space (the
`value.replace(/\s+/g, ' ')` sanitizer in the validators); the flag
records whether the previous character was whitespace. -/
def collapseWsAux : Bool → List Char → List Char
  | _, [] => []
  | prev, c :: t =>
    if isSpaceJS c then
      if prev then collapseWsAux true t else ' ' :: collapseWsAux true t
    else c :: collapseWsAux false t

/-- The `replace(/\s+/g, ' ').trim()` custom sanitizer used on name,
address, city and country. -/
def collapseWs (s : String) : String :=
  trimJS ⟨collapseWsAux false s.data⟩

/-- HTML escaping of a single character, following validator.js
`escape`. -/
def escapeChar (c : Char) : List Char :=
  if c = '&' then "&amp;".data
  else if c = '<' then "&lt;".data
  else if c = '>' then "&gt;".data
  else if c = dq then "&quot;".data
  else if c = sq then ("&#x27;").data
  else if c = bslash then ("&#x5C;").data
  else if c = '/' then ("&#x2F;").data
  else if c = btick then ("&#96;").data
  else [c]

/-- The `.escape()` sanitizer of express-validator (validator.js
`escape`). -/
def escapeJS (s : String) : String :=
  ⟨s.data.flatMap escapeChar⟩

/-- Does `pat` occur as a prefix of `l`? -/
def isPrefixOfL : List Char → List Char → Bool
  | [], _ => true
  | _ :: _, [] => false
  | a :: as, b :: bs => a = b && isPrefixOfL as bs

/-- Does `pat` occur as a contiguous substring of `l`? -/
def containsL (pat : List Char) : List Char → Bool
  | [] => pat.isEmpty
  | c :: t => isPrefixOfL pat (c :: t) || containsL pat t

/-- Substring test on strings (a literal, flagless regex test). -/
def containsSub (pat s : String) : Bool :=
  containsL pat.data s.data

/-- Case-insensitive match of `kw` against a prefix of the input,
returning the remaining characters on success. -/
def dropCI : List Char → List Char → Option (List Char)
  | [], l => some l
  | _ :: _, [] => none
  | k :: ks, c :: cs => if k.toLower = c.toLower then dropCI ks cs else none

/-- Is the zero-width position before the head of the list a `\b`
boundary, given the previous character? -/
def boundaryBefore (prev : Option Char) : Bool :=
  match prev with
  | none => true
  | some c => !isWordChar c

/-- Does the list start (after the recorded previous character) with the
keyword `kw`, case-insensitively and delimited by `\b` on both sides? -/
def kwHere (kw : List Char) (prev : Option Char) (l : List Char) : Bool :=
  boundaryBefore prev &&
    match dropCI kw l with
    | none => false
    | some [] => true
    | some (r :: _) => !isWordChar r

/-- Search for a `\b`-delimited, case-insensitive occurrence of `kw`
anywhere in the list (the regex `\bKW\b` with the `i` flag). -/
def kwSearch (kw : List Char) : Option Char → List Char → Bool
  | _, [] => false
  | prev, c :: cs => kwHere kw prev (c :: cs) || kwSearch kw (some c) cs

/-- A `\b`-delimited case-insensitive word occurs in the string. -/
def hasWordCI (kw : String) (s : String) : Bool :=
  kwSearch kw.data none s.data

/-- Is there a `=` later in the list, before any line terminator (the
`.*=` part of a flagless regex, where `.` does not match newlines)? -/
def eqBeforeNewline : List Char → Bool
  | [] => false
  | c :: t =>
    if c = Char.ofNat 10 || c = Char.ofNat 13 then false
    else c = '=' || eqBeforeNewline t

/-- Search for `\b(OR|AND)\b` followed, on the same line, by `=`
(the regex `(\b(OR|AND)\b.*=.*)` with the `i` flag). -/
def orAndEqSearch (kw : List Char) : Option Char → List Char → Bool
  | _, [] => false
  | prev, c :: cs =>
    (kwHere kw prev (c :: cs) &&
      eqBeforeNewline ((c :: cs).drop kw.length)) ||
    orAndEqSearch kw (some c) cs

/-- The `(\b(OR|AND)\b.*=.*)/i` pattern of the SQL-injection detector. -/
def hasOrAndEq (s : String) : Bool :=
  orAndEqSearch "OR".data none s.data || orAndEqSearch "AND".data none s.data

/-- The reserved-keyword list of the first SQL-injection pattern. -/
def sqlKeywords : List String :=
  ["SELECT", "INSERT", "UPDATE", "DELETE", "DROP", "CREATE", "ALTER",
   "EXEC", "UNION", "SCRIPT"]

/-- Function `detectSQLInjection` from src/middleware/security.js: a string is
suspicious if any of the five fixed patterns matches — a word-bounded
reserved keyword, statement/comment syntax (`;`, `--`, `/*`, `*/`),
an `OR`/`AND` tautology idiom, `1=1`/`1=0`, or any single or double
quote. -/
def detectSQLInjection (s : String) : Bool :=
  sqlKeywords.any (fun kw => hasWordCI kw s) ||
  (s.data.contains ';' || containsSub "--" s || containsSub "/*" s ||
    containsSub "*/" s) ||
  hasOrAndEq s ||
  (containsSub "1=1" s || containsSub "1=0" s) ||
  (s.data.contains sq || s.data.contains dq)

/-! ### The content sanitizer's string action

Modelled from the spec: the repository sanitizes every string leaf with
`DOMPurify.sanitize(value, ALLOWED_TAGS: [], ALLOWED_ATTR: [],
KEEP_CONTENT: true)` (an external library, not part of src/), which the
spec describes as stripping all markup tags and attributes while
preserving the concatenated text content.  We model it as removing
every `<`…`>` tag span (attributes included) and keeping the text
outside tags. -/

/-- Character-level tag stripping; the flag is true while inside a
`<`…`>` markup span. -/
def stripTagsAux : Bool → List Char → List Char
  | _, [] => []
  | false, c :: t => if c = '<' then stripTagsAux true t else c :: stripTagsAux false t
  | true, c :: t => if c = '>' then stripTagsAux false t else stripTagsAux true t

/-- Modelled from the spec: `DOMPurify.sanitize` with all tags and
attributes stripped and text content kept. -/
def dompurifySanitize (s : String) : String :=
  ⟨stripTagsAux false s.data⟩

/-! ### JavaScript numeric and format helpers -/

/-- Decimal digits value accumulation. -/
def digitsToNat : Nat → List Char → Nat
  | acc, [] => acc
  | acc, c :: t => digitsToNat (acc * 10 + (c.toNat - 48)) t

/-- JavaScript `parseInt` (radix auto-detection omitted for hex since no
header in play uses it: leading whitespace, an optional sign, then the
longest leading run of decimal digits; `none` models `NaN`). -/
def parseIntJS (s : String) : Option Int :=
  let l := s.data.dropWhile isSpaceJS
  let (neg, l) :=
    match l with
    | '-' :: t => (true, t)
    | '+' :: t => (false, t)
    | t => (false, t)
  let digits := l.takeWhile Char.isDigit
  if digits.isEmpty then none
  else
    let n : Int := Int.ofNat (digitsToNat 0 digits)
    some (if neg then -n else n)

/-- validator.js `isInt` format: an optional sign followed by one or
more decimal digits. -/
def isIntFormat (s : String) : Bool :=
  let l :=
    match s.data with
    | '-' :: t => t
    | '+' :: t => t
    | t => t
  !l.isEmpty && l.all Char.isDigit

/-- The charset accepted for name, city and country:
`^[a-zA-Z\s֐-׿؀-ۿ.-]+$`. -/
def nameCharOk (c : Char) : Bool :=
  c.isAlpha || isSpaceJS c || (0x590 ≤ c.toNat && c.toNat ≤ 0x5FF) ||
  (0x600 ≤ c.toNat && c.toNat ≤ 0x6FF) || c = '.' || c = '-'

/-- The charset accepted for address:
`^[a-zA-Z0-9\s֐-׿؀-ۿ.,-]+$`. -/
def addressCharOk (c : Char) : Bool :=
  nameCharOk c || c.isDigit || c = ','

/-- The name/city/country charset regex as a whole-string test. -/
def nameCharsetOk (s : String) : Bool :=
  !s.data.isEmpty && s.data.all nameCharOk

/-- The address charset regex as a whole-string test. -/
def addressCharsetOk (s : String) : Bool :=
  !s.data.isEmpty && s.data.all addressCharOk

/-- The phone regex `^\+9725\d{8}$`. -/
def phoneFormatOk (s : String) : Bool :=
  isPrefixOfL "+9725".data s.data &&
  (s.data.drop 5).all Char.isDigit && s.data.length = 13

/-- Modelled from the spec: validator.js `isEmail` (external library),
simplified to the spec's "valid address format": exactly one `@`, a
nonempty space-free local part, and a space-free domain containing an
interior dot. -/
def isEmailJS (s : String) : Bool :=
  match s.data.splitOn '@' with
  | [local_, domain] =>
    !local_.isEmpty && local_.all (fun c => !isSpaceJS c) &&
    !domain.isEmpty && domain.all (fun c => !isSpaceJS c) &&
    containsL ".".data domain &&
    domain.head? ≠ some '.' && domain.getLast? ≠ some '.'
  | _ => false

/-- Modelled from the spec: validator.js `normalizeEmail` with the
repository's options, which lowercases the address and keeps dots and
sub-addressing. -/
def normalizeEmailJS (s : String) : String :=
  ⟨s.data.map Char.toLower⟩

/-! ### JSON-like values -/

mutual
/-- A JSON-like JavaScript value, as found in `req.body`, `req.query`,
`req.params` and in the JSON responses. -/
inductive JValue where
  | str : String → JValue
  | num : Int → JValue
  | jbool : Bool → JValue
  | jnull : JValue
  | obj : JFields → JValue
  | arr : JArr → JValue
  deriving DecidableEq

/-- The key-value fields of a JSON object, in insertion (= `for…in`
enumeration) order. -/
inductive JFields where
  | nil : JFields
  | cons : String → JValue → JFields → JFields
  deriving DecidableEq

/-- The elements of a JSON array. -/
inductive JArr where
  | nil : JArr
  | cons : JValue → JArr → JArr
  deriving DecidableEq
end

/-- The empty JSON object. -/
def jempty : JValue := .obj .nil

/-- First value bound to a key in an object's field list. -/
def JFields.get? : JFields → String → Option JValue
  | .nil, _ => none
  | .cons k v t, key => if k = key then some v else t.get? key

/-- The `Object.entries` / `for…in` view of an object's fields. -/
def JFields.entries : JFields → List (String × JValue)
  | .nil => []
  | .cons k v t => (k, v) :: t.entries

/-- The `Object.keys` list. -/
def JFields.keys (fs : JFields) : List String :=
  fs.entries.map Prod.fst

/-- Build a field list from a list of pairs. -/
def JFields.ofList : List (String × JValue) → JFields
  | [] => .nil
  | (k, v) :: t => .cons k v (ofList t)

/-- Build a JSON array from a list of values. -/
def JArr.ofList : List JValue → JArr
  | [] => .nil
  | v :: t => .cons v (ofList t)

/-- The values of an object's fields (`Object.values`). -/
def JFields.values (fs : JFields) : List JValue :=
  fs.entries.map Prod.snd

/-- Fields of a value expected to be an object (`req.body` and friends
are objects once parsed). -/
def JValue.fieldsOf : JValue → JFields
  | .obj fs => fs
  | _ => .nil

/-- Read a field of an object-shaped value. -/
def JValue.get? (v : JValue) (key : String) : Option JValue :=
  v.fieldsOf.get? key

/-- Read a string field, if present and a string. -/
def JValue.getStr? (v : JValue) (key : String) : Option String :=
  match v.get? key with
  | some (.str s) => some s
  | _ => none

/-- Read a string field with the empty string as default (the handlers
destructure validated bodies, whose fields are strings). -/
def JValue.getStrD (v : JValue) (key : String) : String :=
  (v.getStr? key).getD ""

/-- JavaScript truthiness of a string: nonempty. -/
def strTruthy (s : String) : Bool :=
  !s.data.isEmpty

/-- JavaScript truthiness, as used by `if (updates.email)` and by the
content-length guard. -/
def jTruthy : Option JValue → Bool
  | none => false
  | some (.str s) => strTruthy s
  | some (.num n) => n ≠ 0
  | some (.jbool b) => b
  | some .jnull => false
  | some (.obj _) => true
  | some (.arr _) => true

mutual
/-- JavaScript `String(value)` coercion, used when the validator joins
`Object.values(req.body)` with spaces. -/
def jsToString : JValue → String
  | .str s => s
  | .num n => toString n
  | .jbool b => if b then "true" else "false"
  | .jnull => "null"
  | .obj _ => "[object Object]"
  | .arr xs => jsToStringArr xs
termination_by structural v => v

/-- JavaScript `Array.prototype.toString`: elements joined with commas. -/
def jsToStringArr : JArr → String
  | .nil => ""
  | .cons v .nil => jsToString v
  | .cons v t => jsToString v ++ "," ++ jsToStringArr t
termination_by structural xs => xs
end

/-! ### Key sanitizer (express-mongo-sanitize)

Modelled from the spec: the repository mounts `express-mongo-sanitize`
(an external library, not part of src/), described in the spec as
recursively stripping any object key that begins with the reserved `$`
sigil or contains a `.` path separator. -/

mutual
/-- Strip sigil-prefixed / dotted keys from a value, recursively. -/
def mongoSanitizeVal : JValue → JValue
  | .obj fs => .obj (mongoSanitizeFields fs)
  | .arr xs => .arr (mongoSanitizeArr xs)
  | v => v
termination_by structural v => v

/-- Strip sigil-prefixed / dotted keys from an object's fields. -/
def mongoSanitizeFields : JFields → JFields
  | .nil => .nil
  | .cons k v t =>
    if isPrefixOfL "$".data k.data || containsSub "." k then mongoSanitizeFields t
    else .cons k (mongoSanitizeVal v) (mongoSanitizeFields t)
termination_by structural fs => fs

/-- Strip sigil-prefixed / dotted keys inside array elements. -/
def mongoSanitizeArr : JArr → JArr
  | .nil => .nil
  | .cons v t => .cons (mongoSanitizeVal v) (mongoSanitizeArr t)
termination_by structural xs => xs
end

/-! ### XSS protection middleware (`xssProtection`, security.js) -/

mutual
/-- The per-value action of `sanitizeObject`'s `for…in` loop: strings
are sanitized with DOMPurify, objects and arrays are recursed into,
anything else is left unchanged. -/
def sanitizeValue : JValue → JValue
  | .str s => .str (dompurifySanitize s)
  | .obj fs => .obj (sanitizeObjectFields fs)
  | .arr xs => .arr (sanitizeArrElems xs)
  | v => v
termination_by structural v => v

/-- Loop of `sanitizeObject` over the fields of an object. -/
def sanitizeObjectFields : JFields → JFields
  | .nil => .nil
  | .cons k v t => .cons k (sanitizeValue v) (sanitizeObjectFields t)
termination_by structural fs => fs

/-- Loop of `sanitizeObject` over the index keys of an array. -/
def sanitizeArrElems : JArr → JArr
  | .nil => .nil
  | .cons v t => .cons (sanitizeValue v) (sanitizeArrElems t)
termination_by structural xs => xs
end

/-- Entry point of `sanitizeObject` as applied to `req.body` / `req.query` /
`req.params`: only values that are (non-null) objects are traversed;
anything else is left alone by the guard at the top. -/
def sanitizeTop : JValue → JValue
  | .obj fs => .obj (sanitizeObjectFields fs)
  | .arr xs => .arr (sanitizeArrElems xs)
  | v => v

/-! ### SQL injection protection middleware (`sqlInjectionProtection`) -/

/-- Extend a dotted path by one key, as in
`path ? path + "." + key : key`. -/
def extendPath (path key : String) : String :=
  if path = "" then key else path ++ "." ++ key

mutual
/-- The recursive `checkObject` of `sqlInjectionProtection`, iterating
the fields of an object in order: a string leaf that matches
`detectSQLInjection` stops the scan and reports its dotted path;
(non-null) objects are recursed into; everything else is skipped. -/
def checkObjectFields (path : String) : JFields → Option String
  | .nil => none
  | .cons k v t =>
    let cur := extendPath path k
    match v with
    | .str s =>
      if detectSQLInjection s then some cur else checkObjectFields path t
    | .obj fs =>
      match checkObjectFields cur fs with
      | some e => some e
      | none => checkObjectFields path t
    | .arr xs =>
      match checkObjectArr cur 0 xs with
      | some e => some e
      | none => checkObjectFields path t
    | _ => checkObjectFields path t
termination_by structural fs => fs

/-- Scan of `checkObject` over an array (a `for…in` over an array enumerates
the index keys `"0"`, `"1"`, …). -/
def checkObjectArr (path : String) (i : Nat) : JArr → Option String
  | .nil => none
  | .cons v t =>
    let cur := extendPath path (toString i)
    match v with
    | .str s =>
      if detectSQLInjection s then some cur else checkObjectArr path (i + 1) t
    | .obj fs =>
      match checkObjectFields cur fs with
      | some e => some e
      | none => checkObjectArr path (i + 1) t
    | .arr xs =>
      match checkObjectArr cur 0 xs with
      | some e => some e
      | none => checkObjectArr path (i + 1) t
    | _ => checkObjectArr path (i + 1) t
termination_by structural xs => xs
end

/-- Call of `checkObject` on a whole source (the sources are objects). -/
def checkObject (v : JValue) : Option String :=
  checkObjectFields "" v.fieldsOf

/-- The sources loop of `sqlInjectionProtection`: body, then query,
then params, stopping at the first violation; `some path` means the
request is rejected with a 400 naming `path`. -/
def sqlInjectionCheck (body query params : JValue) : Option String :=
  match checkObject body with
  | some e => some e
  | none =>
    match checkObject query with
    | some e => some e
    | none => checkObject params

/-! ### Specification-side view of the detector

These definitions follow the words of the spec (scan every string leaf
of body, then query, then params, in order, and fail at the first leaf
matching a pattern); the refinement theorems below relate them to the
`checkObject` code translated above. -/

mutual
/-- The string leaves of a value, with their dotted paths, in the order
the detector's traversal visits them. -/
def strLeaves (path : String) : JValue → List (String × String)
  | .str s => [(path, s)]
  | .obj fs => strLeavesFields path fs
  | .arr xs => strLeavesArr path 0 xs
  | _ => []

/-- String leaves below an object's fields. -/
def strLeavesFields (path : String) : JFields → List (String × String)
  | .nil => []
  | .cons k v t =>
    (match v with
     | .str s => [(extendPath path k, s)]
     | .obj fs => strLeavesFields (extendPath path k) fs
     | .arr xs => strLeavesArr (extendPath path k) 0 xs
     | _ => []) ++ strLeavesFields path t
termination_by structural fs => fs

/-- String leaves below an array's elements. -/
def strLeavesArr (path : String) (i : Nat) : JArr → List (String × String)
  | .nil => []
  | .cons v t =>
    (match v with
     | .str s => [(extendPath path (toString i), s)]
     | .obj fs => strLeavesFields (extendPath path (toString i)) fs
     | .arr xs => strLeavesArr (extendPath path (toString i)) 0 xs
     | _ => []) ++ strLeavesArr path (i + 1) t
termination_by structural xs => xs
end

/-- All string leaves of the three scanned sources, in scan order. -/
def allStrLeaves (body query params : JValue) : List (String × String) :=
  strLeavesFields "" body.fieldsOf ++ strLeavesFields "" query.fieldsOf ++
    strLeavesFields "" params.fieldsOf

/-! ### Rate limiting (`createRateLimit`, security.js)

`express-rate-limit` is an external library; its fixed-window counter
per client key is modelled here: a key's first hit opens a window of
`windowMs` milliseconds, later hits increment the counter until the
window expires, and a hit is rejected once the counter exceeds `max`.
Successful and failed requests are counted alike
(`skipSuccessfulRequests` and `skipFailedRequests` are both false). -/

/-- The configuration triple passed to `createRateLimit`. -/
structure RateLimitConfig where
  windowMs : Nat
  max : Nat
  message : String

/-- General rate limiter — 100 requests per 15 minutes. -/
def generalLimiter : RateLimitConfig :=
  ⟨15 * 60 * 1000, 100,
    "Too many requests from this IP, please try again after 15 minutes"⟩

/-- Strict rate limiter for sensitive operations — 5 requests per 15
minutes. -/
def strictLimiter : RateLimitConfig :=
  ⟨15 * 60 * 1000, 5, "Too many attempts, please try again after 15 minutes"⟩

/-- API rate limiter — 1000 requests per hour. -/
def apiLimiter : RateLimitConfig :=
  ⟨60 * 60 * 1000, 1000,
    "API rate limit exceeded, please try again after an hour"⟩

/-- One client's counter in a limiter's memory store. -/
structure RLEntry where
  count : Nat
  resetAt : Nat
  deriving DecidableEq

/-- A limiter's memory store, keyed by client address. -/
abbrev RLStore := List (String × RLEntry)

/-- Look a client up in a limiter store. -/
def rlLookup (st : RLStore) (key : String) : Option RLEntry :=
  (st.find? (fun kv => kv.1 = key)).map Prod.snd

/-- Write a client's entry back (insert or replace). -/
def rlSet : RLStore → String → RLEntry → RLStore
  | [], key, e => [(key, e)]
  | (k, v) :: t, key, e =>
    if k = key then (k, e) :: t else (k, v) :: rlSet t key e

/-- Count one request against a limiter: open a fresh window if none is
active, otherwise increment the active window's counter. -/
def rlHit (cfg : RateLimitConfig) (now : Nat) (key : String) (st : RLStore) :
    RLEntry × RLStore :=
  let e :=
    match rlLookup st key with
    | some e =>
      if e.resetAt ≤ now then ⟨1, now + cfg.windowMs⟩
      else ⟨e.count + 1, e.resetAt⟩
    | none => ⟨1, now + cfg.windowMs⟩
  (e, rlSet st key e)

/-- Does the limiter reject this hit (`count` has exceeded `max`)? -/
def rlRejects (cfg : RateLimitConfig) (e : RLEntry) : Bool :=
  cfg.max < e.count

/-- The `standardHeaders: true` quota headers set on every response
passing through a limiter (remaining floors at zero). -/
def rlHeaders (cfg : RateLimitConfig) (now : Nat) (e : RLEntry) :
    List (String × String) :=
  [("RateLimit-Limit", toString cfg.max),
   ("RateLimit-Remaining", toString (cfg.max - e.count)),
   ("RateLimit-Reset", toString ((e.resetAt - now) / 1000))]

/-! ### Request size limiter (`requestSizeLimiter`, security.js) -/

/-- The `10 * 1024 * 1024` constant — the 10MB cap. -/
def maxRequestSize : Nat := 10 * 1024 * 1024

/-- Does the size guard reject the request?  It decides purely from the
declared `Content-Length` header: the header must be present and truthy
(a nonempty string) and `parseInt` of it must exceed 10MB; an absent
header, or one that parses to `NaN`, always passes. -/
def requestSizeRejects (contentLength : Option String) : Bool :=
  match contentLength with
  | none => false
  | some s =>
    strTruthy s &&
      (match parseIntJS s with
       | some n => (maxRequestSize : Int) < n
       | none => false)

/-! ### Security headers middleware (`securityHeaders`, security.js) -/

/-- The fixed response headers added to every response. -/
def securityHeaders : List (String × String) :=
  [("X-Content-Type-Options", "nosniff"),
   ("X-Frame-Options", "DENY"),
   ("X-XSS-Protection", "1; mode=block"),
   ("Referrer-Policy", "strict-origin-when-cross-origin"),
   ("Permissions-Policy", "geolocation=(), microphone=(), camera=()")]

/-! ### The users table and the store trace -/

/-- A row of the `users` table. -/
structure User where
  id : Nat
  name : String
  email : String
  phone : String
  address : String
  city : String
  country : String
  createdAt : Nat
  updatedAt : Nat
  deriving DecidableEq

/-- JSON serialization of a row, as returned by the handlers. -/
def userToJ (u : User) : JValue :=
  .obj (.ofList
    [("id", .num u.id), ("name", .str u.name), ("email", .str u.email),
     ("phone", .str u.phone), ("address", .str u.address),
     ("city", .str u.city), ("country", .str u.country),
     ("created_at", .num u.createdAt), ("updated_at", .num u.updatedAt)])

/-- The SQL statements the handlers send through the pool, modelled
semantically. -/
inductive StoreOp where
  | selectAll
  | selectById (id : Int)
  | selectByEmail (email : String)
  | insertRow (u : User)
  | updateRow (u : User)
  | deleteRow (id : Int)
  deriving DecidableEq

/-- Observable events of one request: store operations and validator
runs (used to state that a rejected request performed neither). -/
inductive Event where
  | db (op : StoreOp)
  | validation (name : String)
  deriving DecidableEq

/-- Is the event a store operation? -/
def Event.isDb : Event → Bool
  | .db _ => true
  | .validation _ => false

/-- The mutable state shared across requests: the table, the id
sequence, and the three limiter stores. -/
structure AppState where
  store : List User
  nextId : Nat
  general : RLStore
  api : RLStore
  strict : RLStore
  deriving DecidableEq

/-- An HTTP response: status, JSON body, response headers. -/
structure Response where
  status : Nat
  body : JValue
  headers : List (String × String)
  deriving DecidableEq

/-! ### Field validators (middleware/validators.js)

An express-validator chain is a sequence of checks and sanitizers run
left to right over one field's current value; checks that fail append
an error (the chain does not bail), sanitizers rewrite the value in
place.  `validationResult` then collects every error of every chain of
the middleware list, and `validate` turns a nonempty error list into
one 400 response. -/

/-- Which request object a chain reads (`body(...)` or `param(...)`). -/
inductive Loc where
  | body
  | params
  deriving DecidableEq

/-- One step of a validation chain. -/
inductive VStep where
  | check (msg : String) (ok : Option JValue → Bool)
  | sanitize (f : Option JValue → Option JValue)

/-- A whole chain: location, field name (`""` targets the whole
payload, as `body()` does), optionality, steps. -/
structure FieldChain where
  loc : Loc
  field : String
  optional : Bool
  steps : List VStep

/-- One collected validation error: the field's path, the message, and
the rejected value at the time the check ran. -/
structure FieldError where
  path : String
  msg : String
  value : Option JValue
  deriving DecidableEq

/-- Run the steps of a chain over a value, collecting the failing
checks in order and threading sanitizer rewrites. -/
def runSteps : List VStep → Option JValue → List (String × Option JValue) × Option JValue
  | [], v => ([], v)
  | .check msg ok :: t, v =>
    let r := runSteps t v
    (if ok v then r.1 else (msg, v) :: r.1, r.2)
  | .sanitize f :: t, v => runSteps t (f v)

/-- Replace a key's value (or append the key) in an object's fields. -/
def JFields.set : JFields → String → JValue → JFields
  | .nil, key, nv => .cons key nv .nil
  | .cons k v t, key, nv =>
    if k = key then .cons k nv t else .cons k v (t.set key nv)

/-- The value a chain targets. -/
def FieldChain.value (c : FieldChain) (body params : JValue) : Option JValue :=
  let src := match c.loc with | .body => body | .params => params
  if c.field = "" then some src else src.get? c.field

/-- Run one chain: an `optional()` chain is skipped when its field is
absent; otherwise checks collect errors and the final sanitized value
is written back into the request object. -/
def FieldChain.run (c : FieldChain) (body params : JValue) :
    List FieldError × JValue × JValue :=
  let v := c.value body params
  if c.optional && v.isNone then ([], body, params)
  else
    let r := runSteps c.steps v
    let errs := r.1.map (fun mv => FieldError.mk c.field mv.1 mv.2)
    if c.field = "" then (errs, body, params)
    else
      match r.2 with
      | none => (errs, body, params)
      | some nv =>
        match c.loc with
        | .body => (errs, .obj (body.fieldsOf.set c.field nv), params)
        | .params => (errs, body, .obj (params.fieldsOf.set c.field nv))

/-- Run a middleware list of chains left to right, concatenating the
errors of all of them — no chain's failure stops the next chain. -/
def runChains : List FieldChain → JValue → JValue →
    List FieldError × JValue × JValue
  | [], b, p => ([], b, p)
  | c :: t, b, p =>
    let r1 := c.run b p
    let r2 := runChains t r1.2.1 r1.2.2
    (r1.1 ++ r2.1, r2.2)

/-- JSON form of one collected error, as produced by `validate`
(`field`, `message`, `value`; an undefined value is modelled null). -/
def errToJ (e : FieldError) : JValue :=
  .obj (.ofList
    [("field", .str e.path), ("message", .str e.msg),
     ("value", e.value.getD .jnull)])

/-- The 400 payload `validate` sends when errors were collected. -/
def validationFailedBody (errs : List FieldError) : JValue :=
  .obj (.ofList
    [("error", .str "Validation failed"),
     ("details", .arr (.ofList (errs.map errToJ)))])

/-! #### Step builders -/

/-- Read the current value as a string (string-based validators fail on
any non-string). -/
def strOf : Option JValue → Option String
  | some (.str s) => some s
  | _ => none

/-- A string-valued check step. -/
def checkStr (msg : String) (ok : String → Bool) : VStep :=
  .check msg (fun v =>
    match strOf v with
    | some s => ok s
    | none => false)

/-- A string-valued sanitizer step (non-strings pass through). -/
def sanitizeStr (f : String → String) : VStep :=
  .sanitize (fun v =>
    match v with
    | some (.str s) => some (.str (f s))
    | v => v)

/-- Check `isLength` with both bounds. -/
def lenBetween (lo hi : Nat) (s : String) : Bool :=
  decide (lo ≤ s.length) && decide (s.length ≤ hi)

/-! #### Pattern scanners for the custom checks -/

/-- Case-insensitive occurrence of a literal pattern. -/
def containsCI (pat : String) (s : String) : Bool :=
  let rec go : List Char → Bool
    | [] => false
    | c :: t => (dropCI pat.data (c :: t)).isSome || go t
  go s.data

/-- Case-insensitive occurrence before any line terminator (a `.*pat`
tail of a flagless regex). -/
def ciOccursNoNl (pat : List Char) : List Char → Bool
  | [] => false
  | c :: t =>
    if c = Char.ofNat 10 || c = Char.ofNat 13 then false
    else (dropCI pat (c :: t)).isSome || ciOccursNoNl pat t

/-- Character `start` followed on the same line by the pattern (regexes like
`/\+.*script/i` and `/<.*>/`). -/
def charThenCI (start : Char) (pat : String) (s : String) : Bool :=
  let rec go : List Char → Bool
    | [] => false
    | c :: t => (c = start && ciOccursNoNl pat.data t) || go t
  go s.data

/-- The suspicious-email custom check of `validateUser`
(`/\+.*script/i`, `/javascript:/i`, `/data:/i`, `/<.*>/`). -/
def emailSuspicious (s : String) : Bool :=
  charThenCI '+' "script" s || containsCI "javascript:" s ||
  containsCI "data:" s || charThenCI '<' ">" s

/-- After `<script` (case-insensitively): any run without `>`, then
`>`, then `</script>` on the same line — `/<script[^>]*>.*?<\/script>/`. -/
def scriptTagClose : List Char → Bool
  | [] => false
  | c :: t => if c = '>' then ciOccursNoNl "</script>".data (c :: t) else scriptTagClose t

/-- Regex `/<script[^>]*>.*?<\/script>/gi`. -/
def hasScriptTag (s : String) : Bool :=
  let rec go : List Char → Bool
    | [] => false
    | c :: t =>
      (match dropCI "<script".data (c :: t) with
       | some rest => scriptTagClose rest
       | none => false) || go t
  go s.data

/-- Regex `/on\w+\s*=/gi`: `on`, at least one word character, optional
whitespace, `=`. -/
def hasOnAttr (s : String) : Bool :=
  let rec go : List Char → Bool
    | [] => false
    | c :: t =>
      (match dropCI "on".data (c :: t) with
       | some rest =>
         let ws := rest.takeWhile isWordChar
         !ws.isEmpty &&
           ((rest.drop ws.length).dropWhile isSpaceJS).head? = some '='
       | none => false) || go t
  go s.data

/-- Regex `/expression\s*\(/gi`. -/
def hasExpressionCall (s : String) : Bool :=
  let rec go : List Char → Bool
    | [] => false
    | c :: t =>
      (match dropCI "expression".data (c :: t) with
       | some rest => (rest.dropWhile isSpaceJS).head? = some '('
       | none => false) || go t
  go s.data

/-- The `dangerousPatterns` list of `validateUser`'s whole-body custom
check, applied to `Object.values(req.body).join(' ')`. -/
def dangerousContent (s : String) : Bool :=
  hasScriptTag s || containsCI "javascript:" s || hasOnAttr s ||
  hasExpressionCall s || containsCI "vbscript:" s ||
  containsCI "data:text/html" s

/-- The joined body values, `Object.values(req.body)` joined by spaces. -/
def joinedBodyValues (body : JValue) : String :=
  String.intercalate " " (body.fieldsOf.values.map jsToString)

/-- The fixed whitelist of updatable field names, shared by
`validateUserUpdate` and the PATCH handler. -/
def allowedFields : List String :=
  ["name", "email", "phone", "address", "city", "country"]

/-! #### The three validator middleware lists -/

/-- Keep digits and `+` (the phone `customSanitizer`). -/
def keepPlusDigits (s : String) : String :=
  ⟨s.data.filter (fun c => c.isDigit || c = '+')⟩

/-- The `name` chain of `validateUser`. -/
def nameSteps : List VStep :=
  [sanitizeStr trimJS,
   checkStr "Name must be between 2 and 100 characters" (lenBetween 2 100),
   checkStr
     "Name can only contain letters, spaces, dots, hyphens, and Hebrew/Arabic characters"
     nameCharsetOk,
   sanitizeStr escapeJS,
   sanitizeStr collapseWs]

/-- The `email` chain of `validateUser`. -/
def emailSteps : List VStep :=
  [sanitizeStr trimJS,
   checkStr "Must be a valid email address" isEmailJS,
   checkStr "Email address too long" (fun s => decide (s.length ≤ 254)),
   sanitizeStr normalizeEmailJS,
   checkStr "Email contains suspicious content" (fun s => !emailSuspicious s)]

/-- The `phone` chain of `validateUser`. -/
def phoneSteps : List VStep :=
  [sanitizeStr trimJS,
   checkStr "Must be a valid Israeli phone number (+9725xxxxxxxx)" phoneFormatOk,
   sanitizeStr keepPlusDigits,
   checkStr "Phone number must be exactly 13 characters" (lenBetween 13 13)]

/-- The `address` chain of `validateUser`. -/
def addressSteps : List VStep :=
  [sanitizeStr trimJS,
   checkStr "Address must be between 5 and 255 characters" (lenBetween 5 255),
   checkStr "Address contains invalid characters" addressCharsetOk,
   sanitizeStr escapeJS,
   sanitizeStr collapseWs]

/-- The `city` chain of `validateUser`. -/
def citySteps : List VStep :=
  [sanitizeStr trimJS,
   checkStr "City must be between 2 and 100 characters" (lenBetween 2 100),
   checkStr
     "City can only contain letters, spaces, dots, hyphens, and Hebrew/Arabic characters"
     nameCharsetOk,
   sanitizeStr escapeJS,
   sanitizeStr collapseWs]

/-- The `country` chain of `validateUser`. -/
def countrySteps : List VStep :=
  [sanitizeStr trimJS,
   checkStr "Country must be between 2 and 100 characters" (lenBetween 2 100),
   checkStr
     "Country can only contain letters, spaces, dots, hyphens, and Hebrew/Arabic characters"
     nameCharsetOk,
   sanitizeStr escapeJS,
   sanitizeStr collapseWs]

/-- Middleware `validateUser`: the six field chains plus the cross-field
suspicious-content check. -/
def validateUser : List FieldChain :=
  [⟨.body, "name", false, nameSteps⟩,
   ⟨.body, "email", false, emailSteps⟩,
   ⟨.body, "phone", false, phoneSteps⟩,
   ⟨.body, "address", false, addressSteps⟩,
   ⟨.body, "city", false, citySteps⟩,
   ⟨.body, "country", false, countrySteps⟩,
   ⟨.body, "", false,
     [.check "Suspicious content detected in request"
       (fun v =>
         match v with
         | some bv => !dangerousContent (joinedBodyValues bv)
         | none => true)]⟩]

/-- The `email` chain of `validateUserUpdate` (no suspicious-content
custom here, unlike the create chain). -/
def emailUpdateSteps : List VStep :=
  [sanitizeStr trimJS,
   checkStr "Must be a valid email address" isEmailJS,
   checkStr "Email address too long" (fun s => decide (s.length ≤ 254)),
   sanitizeStr normalizeEmailJS]

/-- The `phone` chain of `validateUserUpdate` (no exact-length check
here, unlike the create chain). -/
def phoneUpdateSteps : List VStep :=
  [sanitizeStr trimJS,
   checkStr "Must be a valid Israeli phone number (+9725xxxxxxxx)" phoneFormatOk,
   sanitizeStr keepPlusDigits]

/-- The six optional per-field chains of `validateUserUpdate`. -/
def updateFieldChains : List FieldChain :=
  [⟨.body, "name", true, nameSteps⟩,
   ⟨.body, "email", true, emailUpdateSteps⟩,
   ⟨.body, "phone", true, phoneUpdateSteps⟩,
   ⟨.body, "address", true, addressSteps⟩,
   ⟨.body, "city", true, citySteps⟩,
   ⟨.body, "country", true, countrySteps⟩]

/-- The final whole-body check of `validateUserUpdate`: at least one
recognized field must be supplied. -/
def atLeastOneField : FieldChain :=
  ⟨.body, "", false,
   [.check "At least one field must be provided for update"
     (fun v =>
       match v with
       | some bv =>
         !(bv.fieldsOf.keys.filter (fun k => allowedFields.contains k)).isEmpty
       | none => true)]⟩

/-- Middleware `validateUserUpdate`: every field chain is optional, and a final
whole-body check demands at least one recognized field. -/
def validateUserUpdate : List FieldChain :=
  updateFieldChains ++ [atLeastOneField]

/-- Check `isInt` with min 1 and max 2147483647 on the raw parameter string. -/
def idIntOk (v : Option JValue) : Bool :=
  match strOf v with
  | some s =>
    isIntFormat s &&
      (match parseIntJS s with
       | some n => decide (1 ≤ n) && decide (n ≤ 2147483647)
       | none => false)
  | none => false

/-- The `.toInt()` sanitizer; a string that does not parse becomes the
`NaN` marker (modelled as the string `"NaN"` for the later
`toString` test). -/
def toIntS (v : Option JValue) : Option JValue :=
  match v with
  | some (.str s) =>
    some (match parseIntJS s with
          | some n => .num n
          | none => .str "NaN")
  | v => v

/-- The custom check of `validateId`: no quote, backtick, semicolon,
backslash or hyphen in `value.toString()`. -/
def idCharsOk (v : Option JValue) : Bool :=
  match v with
  | some jv =>
    !((jsToString jv).data.any
      (fun c => c = sq || c = dq || c = btick || c = ';' || c = bslash || c = '-'))
  | none => false

/-- Middleware `validateId`: the `:id` route-parameter chain. -/
def validateId : List FieldChain :=
  [⟨.params, "id", false,
    [.check "ID must be a positive integer within valid range" idIntOk,
     .sanitize toIntS,
     .check "Invalid characters in ID" idCharsOk]⟩]

/-! ### The users router (src/routes/users.js) -/

/-- HTTP methods used by the API. -/
inductive Method where
  | GET
  | POST
  | PUT
  | PATCH
  | DELETE
  deriving DecidableEq

/-- Method name, for the 404 message. -/
def methodStr : Method → String
  | .GET => "GET"
  | .POST => "POST"
  | .PUT => "PUT"
  | .PATCH => "PATCH"
  | .DELETE => "DELETE"

/-- An inbound request: method, path segments, client address, declared
content length, parsed JSON body, query object. -/
structure Request where
  method : Method
  path : List String
  client : String
  contentLength : Option String
  body : JValue
  query : JValue

/-- The route-level middlewares of the users router. -/
inductive MW where
  | strictLimiter
  | validateId
  | validateUser
  | validateUserUpdate
  deriving DecidableEq

/-- One route registration of the users router. -/
structure Route where
  method : Method
  hasIdParam : Bool
  middlewares : List MW

/-- The six registrations of src/routes/users.js, in source order. -/
def userRoutes : List Route :=
  [⟨.GET, false, []⟩,
   ⟨.GET, true, [.validateId]⟩,
   ⟨.POST, false, [.strictLimiter, .validateUser]⟩,
   ⟨.PUT, true, [.strictLimiter, .validateId, .validateUser]⟩,
   ⟨.PATCH, true, [.strictLimiter, .validateId, .validateUserUpdate]⟩,
   ⟨.DELETE, true, [.strictLimiter, .validateId]⟩]

/-- Per-request context threaded through route middlewares. -/
structure Ctx where
  body : JValue
  params : JValue
  st : AppState
  hdrs : List (String × String)
  events : List Event
  deriving DecidableEq

/-- Run one validator middleware: record that validation ran, collect
all chain errors, reject with one 400 if any, else pass the sanitized
request on. -/
def runValidator (name : String) (chains : List FieldChain) (c : Ctx) :
    Except (Response × AppState × List Event) Ctx :=
  let events := c.events ++ [.validation name]
  let r := runChains chains c.body c.params
  if r.1.isEmpty then .ok { c with body := r.2.1, params := r.2.2, events := events }
  else .error (⟨400, validationFailedBody r.1, c.hdrs⟩, c.st, events)

/-- Run one route middleware. -/
def runMW (now : Nat) (client : String) : MW → Ctx →
    Except (Response × AppState × List Event) Ctx
  | .strictLimiter, c =>
    let r := rlHit strictLimiter now client c.st.strict
    let st := { c.st with strict := r.2 }
    let hdrs := c.hdrs ++ rlHeaders strictLimiter now r.1
    if rlRejects strictLimiter r.1 then
      .error (⟨429, .obj (.ofList [("error", .str strictLimiter.message)]), hdrs⟩,
        st, c.events)
    else .ok { c with st := st, hdrs := hdrs }
  | .validateId, c => runValidator "validateId" validateId c
  | .validateUser, c => runValidator "validateUser" validateUser c
  | .validateUserUpdate, c => runValidator "validateUserUpdate" validateUserUpdate c

/-- Run a route's middleware list left to right, short-circuiting on
the first rejection. -/
def runMWs (now : Nat) (client : String) : List MW → Ctx →
    Except (Response × AppState × List Event) Ctx
  | [], c => .ok c
  | mw :: t, c =>
    match runMW now client mw c with
    | .error r => .error r
    | .ok c2 => runMWs now client t c2

/-! #### Handlers -/

/-- Query `SELECT * FROM users WHERE id = $1`. -/
def findById (store : List User) (id : Int) : Option User :=
  store.find? (fun u => (u.id : Int) = id)

/-- Query `SELECT id FROM users WHERE email = $1` (is the email taken?). -/
def emailTaken (store : List User) (email : String) : Bool :=
  store.any (fun u => u.email = email)

/-- Query `SELECT id FROM users WHERE email = $1 AND id != $2`. -/
def emailTakenByOther (store : List User) (email : String) (id : Int) : Bool :=
  store.any (fun u => u.email = email && (u.id : Int) ≠ id)

/-- Insert a row into an id-ordered list. -/
def insertById (u : User) : List User → List User
  | [] => [u]
  | v :: t => if u.id ≤ v.id then u :: v :: t else v :: insertById u t

/-- Sort by `ORDER BY id ASC`. -/
def orderById : List User → List User
  | [] => []
  | u :: t => insertById u (orderById t)

/-- Statement `UPDATE … WHERE id` over the table. -/
def replaceUser (store : List User) (u : User) : List User :=
  store.map (fun v => if v.id = u.id then u else v)

/-- The validated integer id from `req.params`. -/
def paramId (params : JValue) : Int :=
  match params.get? "id" with
  | some (.num n) => n
  | _ => 0

/-- The 404 payload of the user routes. -/
def userNotFoundBody (id : Int) : JValue :=
  .obj (.ofList
    [("error", .str "User not found"),
     ("message", .str ("No user found with ID: " ++ toString id))])

/-- GET `/api/users` — list all rows ordered by ascending id. -/
def listHandler (c : Ctx) : Response × AppState × List Event :=
  let rows := orderById c.st.store
  (⟨200,
    .obj (.ofList
      [("success", .jbool true), ("count", .num rows.length),
       ("data", .arr (.ofList (rows.map userToJ)))]),
    c.hdrs⟩, c.st, c.events ++ [.db .selectAll])

/-- GET `/api/users/:id`. -/
def getHandler (c : Ctx) : Response × AppState × List Event :=
  let id := paramId c.params
  let events := c.events ++ [.db (.selectById id)]
  match findById c.st.store id with
  | none => (⟨404, userNotFoundBody id, c.hdrs⟩, c.st, events)
  | some u =>
    (⟨200, .obj (.ofList [("success", .jbool true), ("data", userToJ u)]),
      c.hdrs⟩, c.st, events)

/-- The 409 payload for a create-time email conflict. -/
def emailConflictBody : JValue :=
  .obj (.ofList
    [("error", .str "Email already exists"),
     ("message", .str "A user with this email address already exists")])

/-- The 409 payload for an update-time email conflict. -/
def emailConflictOtherBody : JValue :=
  .obj (.ofList
    [("error", .str "Email already exists"),
     ("message", .str "Another user with this email address already exists")])

/-- POST `/api/users` — uniqueness pre-check, then insert with a
generated id and creation timestamps. -/
def createHandler (now : Nat) (c : Ctx) : Response × AppState × List Event :=
  let email := c.body.getStrD "email"
  let events := c.events ++ [.db (.selectByEmail email)]
  if emailTaken c.st.store email then
    (⟨409, emailConflictBody, c.hdrs⟩, c.st, events)
  else
    let u : User :=
      ⟨c.st.nextId, c.body.getStrD "name", email, c.body.getStrD "phone",
        c.body.getStrD "address", c.body.getStrD "city",
        c.body.getStrD "country", now, now⟩
    (⟨201,
      .obj (.ofList
        [("success", .jbool true), ("message", .str "User created successfully"),
         ("data", userToJ u)]),
      c.hdrs⟩,
     { c.st with store := c.st.store ++ [u], nextId := c.st.nextId + 1 },
     events ++ [.db (.insertRow u)])

/-- PUT `/api/users/:id` — full replace of every writable field. -/
def updateHandler (now : Nat) (c : Ctx) : Response × AppState × List Event :=
  let id := paramId c.params
  let events := c.events ++ [.db (.selectById id)]
  match findById c.st.store id with
  | none => (⟨404, userNotFoundBody id, c.hdrs⟩, c.st, events)
  | some u0 =>
    let email := c.body.getStrD "email"
    let events := events ++ [.db (.selectByEmail email)]
    if emailTakenByOther c.st.store email id then
      (⟨409, emailConflictOtherBody, c.hdrs⟩, c.st, events)
    else
      let u : User :=
        { u0 with
          name := c.body.getStrD "name", email := email,
          phone := c.body.getStrD "phone", address := c.body.getStrD "address",
          city := c.body.getStrD "city", country := c.body.getStrD "country",
          updatedAt := now }
      (⟨200,
        .obj (.ofList
          [("success", .jbool true),
           ("message", .str "User updated successfully"), ("data", userToJ u)]),
        c.hdrs⟩,
       { c.st with store := replaceUser c.st.store u },
       events ++ [.db (.updateRow u)])

/-! #### PATCH: the dynamic update builder -/

/-- The builder loop of the PATCH handler, exactly as in the source:
whitelisted keys append a `key = $n` clause and their value, with the
placeholder counter starting at 1; every other key is skipped. -/
def buildUpdateFields :
    List (String × JValue) → List String → List JValue → Nat →
      List String × List JValue × Nat
  | [], flds, vals, pc => (flds, vals, pc)
  | (k, v) :: t, flds, vals, pc =>
    if allowedFields.contains k then
      buildUpdateFields t (flds ++ [k ++ " = $" ++ toString pc]) (vals ++ [v])
        (pc + 1)
    else buildUpdateFields t flds vals pc

/-- The `Object.entries(updates)` list fed through the builder loop. -/
def buildUpdate (updates : List (String × JValue)) :
    List String × List JValue × Nat :=
  buildUpdateFields updates [] [] 1

/-- The generated SQL text (the source's template literal, with its
layout whitespace normalized to single spaces). -/
def patchQueryText (flds : List String) (pc : Nat) : String :=
  "UPDATE users SET " ++
    String.intercalate ", " (flds ++ ["updated_at = CURRENT_TIMESTAMP"]) ++
    " WHERE id = $" ++ toString pc ++ " RETURNING *"

/-- The semantic effect of one `key = $n` assignment when the generated
statement runs (values are the parameterized strings). -/
def applyField (u : User) (kv : String × JValue) : User :=
  let s := match kv.2 with | .str s => s | v => jsToString v
  if kv.1 = "name" then { u with name := s }
  else if kv.1 = "email" then { u with email := s }
  else if kv.1 = "phone" then { u with phone := s }
  else if kv.1 = "address" then { u with address := s }
  else if kv.1 = "city" then { u with city := s }
  else if kv.1 = "country" then { u with country := s }
  else u

/-- PATCH `/api/users/:id` — existence check, conditional email
conflict check, dynamic update of only the whitelisted supplied fields
plus `updated_at`. -/
def patchHandler (now : Nat) (c : Ctx) : Response × AppState × List Event :=
  let id := paramId c.params
  let updates := c.body.fieldsOf.entries
  let events := c.events ++ [.db (.selectById id)]
  match findById c.st.store id with
  | none => (⟨404, userNotFoundBody id, c.hdrs⟩, c.st, events)
  | some u0 =>
    let emailSupplied := jTruthy (c.body.get? "email")
    let events :=
      if emailSupplied then events ++ [.db (.selectByEmail (c.body.getStrD "email"))]
      else events
    if emailSupplied && emailTakenByOther c.st.store (c.body.getStrD "email") id then
      (⟨409, emailConflictOtherBody, c.hdrs⟩, c.st, events)
    else
      let b := buildUpdate updates
      if b.1.isEmpty then
        (⟨400,
          .obj (.ofList
            [("error", .str "No valid fields to update"),
             ("message", .str "Please provide at least one valid field to update")]),
          c.hdrs⟩, c.st, events)
      else
        let matched := updates.filter (fun kv => allowedFields.contains kv.1)
        let u := { matched.foldl applyField u0 with updatedAt := now }
        (⟨200,
          .obj (.ofList
            [("success", .jbool true),
             ("message", .str "User updated successfully"), ("data", userToJ u)]),
          c.hdrs⟩,
         { c.st with store := replaceUser c.st.store u },
         events ++ [.db (.updateRow u)])

/-- DELETE `/api/users/:id`. -/
def deleteHandler (c : Ctx) : Response × AppState × List Event :=
  let id := paramId c.params
  let events := c.events ++ [.db (.selectById id)]
  match findById c.st.store id with
  | none => (⟨404, userNotFoundBody id, c.hdrs⟩, c.st, events)
  | some _ =>
    (⟨200,
      .obj (.ofList
        [("success", .jbool true), ("message", .str "User deleted successfully")]),
      c.hdrs⟩,
     { c.st with store := c.st.store.filter (fun v => !((v.id : Int) = id)) },
     events ++ [.db (.deleteRow id)])

/-- Dispatch a matched route to its handler. -/
def runHandler (now : Nat) : Method → Bool → Ctx → Response × AppState × List Event
  | .GET, false, c => listHandler c
  | .GET, true, c => getHandler c
  | .POST, false, c => createHandler now c
  | .PUT, true, c => updateHandler now c
  | .PATCH, true, c => patchHandler now c
  | .DELETE, true, c => deleteHandler c
  | _, _, c => (⟨404, .obj (.ofList [("error", .str "Not Found")]), c.hdrs⟩, c.st, c.events)

/-- Match a users-router sub-path against the route table and bind the
`:id` parameter. -/
def matchRoute (m : Method) (rest : List String) : Option (Route × JValue) :=
  match rest with
  | [] =>
    (userRoutes.find? (fun r => r.method = m && !r.hasIdParam)).map
      (fun r => (r, jempty))
  | [seg] =>
    (userRoutes.find? (fun r => r.method = m && r.hasIdParam)).map
      (fun r => (r, .obj (.cons "id" (.str seg) .nil)))
  | _ => none

/-- The application's 404 payload. -/
def notFoundBody (req : Request) : JValue :=
  .obj (.ofList
    [("error", .str "Not Found"),
     ("message",
      .str ("Cannot " ++ methodStr req.method ++ " /" ++
        String.intercalate "/" req.path))])

/-- The users router: match, run the route middlewares, then the
handler; an unmatched sub-path falls through to the 404 handler. -/
def usersRouter (now : Nat) (req : Request) (rest : List String) (c : Ctx) :
    Response × AppState × List Event :=
  match matchRoute req.method rest with
  | none => (⟨404, notFoundBody req, c.hdrs⟩, c.st, c.events)
  | some rp =>
    match runMWs now req.client rp.1.middlewares { c with params := rp.2 } with
    | .error r => r
    | .ok c2 => runHandler now rp.1.method rp.1.hasIdParam c2

/-! ### The application pipeline (index.js)

Middleware in mount order: security headers (helmet and CORS add
headers only and are not modelled further), the request size limiter,
body parsing (requests arrive parsed here), HTTP-parameter-pollution
and NoSQL-key sanitization, XSS sanitization, SQL-injection detection,
the general limiter; then the `/api/users` mount (API limiter plus
router), the `/health` route, and the 404 handler.  App-level
middleware runs before routing, so `req.params` is empty at the
detector. -/

/-- Everything after the size guard. -/
def routeRequest (now uptime : Nat) (req : Request) (st : AppState) :
    Response × AppState × List Event :=
  let hdrs := securityHeaders
  let body := sanitizeTop (mongoSanitizeVal req.body)
  let query := sanitizeTop (mongoSanitizeVal req.query)
  match sqlInjectionCheck body query jempty with
  | some f =>
    (⟨400,
      .obj (.ofList
        [("error", .str "Potential SQL injection detected"), ("field", .str f)]),
      hdrs⟩, st, [])
  | none =>
    let g := rlHit generalLimiter now req.client st.general
    let st := { st with general := g.2 }
    let hdrs := hdrs ++ rlHeaders generalLimiter now g.1
    if rlRejects generalLimiter g.1 then
      (⟨429, .obj (.ofList [("error", .str generalLimiter.message)]), hdrs⟩, st, [])
    else
      match req.path with
      | "api" :: "users" :: rest =>
        let a := rlHit apiLimiter now req.client st.api
        let st := { st with api := a.2 }
        let hdrs := hdrs ++ rlHeaders apiLimiter now a.1
        if rlRejects apiLimiter a.1 then
          (⟨429, .obj (.ofList [("error", .str apiLimiter.message)]), hdrs⟩, st, [])
        else
          usersRouter now req rest
            { body := body, params := jempty, st := st, hdrs := hdrs, events := [] }
      | ["health"] =>
        if req.method = Method.GET then
          (⟨200,
            .obj (.ofList
              [("status", .str "OK"), ("timestamp", .num now),
               ("uptime", .num uptime)]),
            hdrs⟩, st, [])
        else (⟨404, notFoundBody req, hdrs⟩, st, [])
      | _ => (⟨404, notFoundBody req, hdrs⟩, st, [])

/-- One request through the whole pipeline. -/
def processRequest (now uptime : Nat) (req : Request) (st : AppState) :
    Response × AppState × List Event :=
  if requestSizeRejects req.contentLength then
    (⟨413,
      .obj (.ofList
        [("error", .str "Request entity too large"), ("maxSize", .str "10MB")]),
      securityHeaders⟩, st, [])
  else routeRequest now uptime req st

/-! ### Concrete fixtures used by the theorems -/

/-- The classic injection payload of the spec, `'; DROP TABLE users; --`. -/
def dropStr : String := String.mk ([sq] ++ "; DROP TABLE users; --".data)

/-- A legitimate name containing an apostrophe. -/
def obrien : String := String.mk ("O".data ++ [sq] ++ "Brien".data)

/-- A fresh application state: empty table, id sequence at 1, all
limiter stores empty. -/
def fresh : AppState := ⟨[], 1, [], [], []⟩

/-- A plain `GET /health` request. -/
def healthReq : Request := ⟨.GET, ["health"], "c", none, jempty, jempty⟩

/-- A seeded row. -/
def u1 : User :=
  ⟨1, "Alice Cohen", "alice@example.com", "+972501234567", "HaYarkon st 5",
   "Tel Aviv", "Israel", 0, 0⟩

/-- A state whose table holds the one seeded row. -/
def seeded : AppState := ⟨[u1], 2, [], [], []⟩

/-- Request `PATCH /api/users/1` with a valid name. -/
def patchReq : Request :=
  ⟨.PATCH, ["api", "users", "1"], "c", none,
   .obj (.ofList [("name", .str "NewName")]), jempty⟩

/-- Request `PATCH /api/users/1` with an empty body. -/
def emptyPatchReq : Request :=
  ⟨.PATCH, ["api", "users", "1"], "c", none, jempty, jempty⟩

/-- Request `PATCH /api/users/1` whose body tries to overwrite `id`. -/
def idPatchReq : Request :=
  ⟨.PATCH, ["api", "users", "1"], "c", none,
   .obj (.ofList [("id", .num 999), ("name", .str "NewName")]), jempty⟩

/-- A `POST /api/users` whose name field holds an apostrophe. -/
def obrienPost : Request :=
  ⟨.POST, ["api", "users"], "c", none,
   .obj (.ofList
     [("name", .str obrien), ("email", .str "ob@example.com"),
      ("phone", .str "+972501234567"), ("address", .str "HaYarkon st 5"),
      ("city", .str "Tel Aviv"), ("country", .str "Israel")]), jempty⟩

/-- A request declaring a 20MB content length whose body carries the
injection payload. -/
def bigReq : Request :=
  ⟨.POST, ["api", "users"], "c", some "20971520",
   .obj (.ofList [("name", .str dropStr)]), jempty⟩

/-- Run a list of requests sequentially through the pipeline, collecting
the responses. -/
def runSeq (now uptime : Nat) : List Request → AppState → List Response
  | [], _ => []
  | r :: t, st =>
    let p := processRequest now uptime r st
    p.1 :: runSeq now uptime t p.2.1

/-- A body failing two different field chains. -/
def exBadBody : JValue :=
  .obj (.ofList [("name", .str "A"), ("phone", .str "123")])

/-- A small `POST /api/users` carrying the injection payload. -/
def dropPost : Request :=
  ⟨.POST, ["api", "users"], "c", none,
   .obj (.ofList [("name", .str dropStr)]), jempty⟩

/-! ### Claim C2 — the dynamic update builder -/

/-- Spec-side clause list: one `key = $n` clause per supplied pair, with
placeholders numbered sequentially from `pc`. -/
def clausesFrom (pc : Nat) : List (String × JValue) → List String
  | [] => []
  | kv :: t => (kv.1 ++ " = $" ++ toString pc) :: clausesFrom (pc + 1) t

/-- List `find?` distributes over append, taking the first hit. -/
theorem list_find_append {α : Type} (p : α → Bool) (l₁ l₂ : List α) :
    (l₁ ++ l₂).find? p =
      match l₁.find? p with
      | some a => some a
      | none => l₂.find? p := by
  induction l₁ with
  | nil => simp
  | cons a t ih =>
    by_cases h : p a <;> simp [List.find?, h, ih]

mutual
/-- The detector's object scan returns exactly the dotted path of the
first string leaf, in traversal order, matching a pattern. -/
theorem checkObjectFields_eq : (path : String) → (fs : JFields) →
    checkObjectFields path fs =
      ((strLeavesFields path fs).find? (fun pv => detectSQLInjection pv.2)).map
        Prod.fst
  | _, .nil => rfl
  | path, .cons k v t => by
    cases v with
    | str s =>
      by_cases h : detectSQLInjection s <;>
        simp [checkObjectFields, strLeavesFields, List.find?, h,
          checkObjectFields_eq path t]
    | obj fs =>
      have h1 := checkObjectFields_eq (extendPath path k) fs
      have h2 := checkObjectFields_eq path t
      rcases hf : (strLeavesFields (extendPath path k) fs).find?
          (fun pv => detectSQLInjection pv.2) with _ | pair <;>
        simp [checkObjectFields, strLeavesFields, list_find_append, h1, h2, hf]
    | arr xs =>
      have h1 := checkObjectArr_eq (extendPath path k) 0 xs
      have h2 := checkObjectFields_eq path t
      rcases hf : (strLeavesArr (extendPath path k) 0 xs).find?
          (fun pv => detectSQLInjection pv.2) with _ | pair <;>
        simp [checkObjectFields, strLeavesFields, list_find_append, h1, h2, hf]
    | num n =>
      simp [checkObjectFields, strLeavesFields, checkObjectFields_eq path t]
    | jbool b =>
      simp [checkObjectFields, strLeavesFields, checkObjectFields_eq path t]
    | jnull =>
      simp [checkObjectFields, strLeavesFields, checkObjectFields_eq path t]

/-- The detector's array scan returns exactly the dotted path of the
first string leaf, in traversal order, matching a pattern. -/
theorem checkObjectArr_eq : (path : String) → (i : Nat) → (xs : JArr) →
    checkObjectArr path i xs =
      ((strLeavesArr path i xs).find? (fun pv => detectSQLInjection pv.2)).map
        Prod.fst
  | _, _, .nil => rfl
  | path, i, .cons v t => by
    cases v with
    | str s =>
      by_cases h : detectSQLInjection s <;>
        simp [checkObjectArr, strLeavesArr, List.find?, h,
          checkObjectArr_eq path (i + 1) t]
    | obj fs =>
      have h1 := checkObjectFields_eq (extendPath path (toString i)) fs
      have h2 := checkObjectArr_eq path (i + 1) t
      rcases hf : (strLeavesFields (extendPath path (toString i)) fs).find?
          (fun pv => detectSQLInjection pv.2) with _ | pair <;>
        simp [checkObjectArr, strLeavesArr, list_find_append, h1, h2, hf]
    | arr xs =>
      have h1 := checkObjectArr_eq (extendPath path (toString i)) 0 xs
      have h2 := checkObjectArr_eq path (i + 1) t
      rcases hf : (strLeavesArr (extendPath path (toString i)) 0 xs).find?
          (fun pv => detectSQLInjection pv.2) with _ | pair <;>
        simp [checkObjectArr, strLeavesArr, list_find_append, h1, h2, hf]
    | num n =>
      simp [checkObjectArr, strLeavesArr, checkObjectArr_eq path (i + 1) t]
    | jbool b =>
      simp [checkObjectArr, strLeavesArr, checkObjectArr_eq path (i + 1) t]
    | jnull =>
      simp [checkObjectArr, strLeavesArr, checkObjectArr_eq path (i + 1) t]
end

/-- The whole sources loop returns exactly the dotted path of the first
matching string leaf across body, query and params, in that order. -/
theorem sqlInjectionCheck_eq (b q p : JValue) :
    sqlInjectionCheck b q p =
      ((allStrLeaves b q p).find? (fun pv => detectSQLInjection pv.2)).map
        Prod.fst := by
  unfold sqlInjectionCheck checkObject allStrLeaves
  rw [list_find_append, list_find_append]
  rcases hb : (strLeavesFields "" b.fieldsOf).find?
      (fun pv => detectSQLInjection pv.2) with _ | pb
  · rcases hq : (strLeavesFields "" q.fieldsOf).find?
        (fun pv => detectSQLInjection pv.2) with _ | pq <;>
      simp [checkObjectFields_eq, hb, hq]
  · simp [checkObjectFields_eq, hb]

/-- The detector lets a request continue exactly when no string leaf of
any source matches any pattern. -/
theorem sqlInjectionCheck_none_iff (b q p : JValue) :
    sqlInjectionCheck b q p = none ↔
      ∀ pv ∈ allStrLeaves b q p, detectSQLInjection pv.2 = false := by
  rw [sqlInjectionCheck_eq]
  simp [List.find?_eq_none]

/-- The builder loop, run from any accumulator, appends exactly the
clauses, values and count of the whitelisted entries. -/
theorem buildUpdateFields_eq (l : List (String × JValue)) :
    ∀ flds vals pc,
      buildUpdateFields l flds vals pc =
        (flds ++ clausesFrom pc (l.filter (fun kv => allowedFields.contains kv.1)),
         vals ++ (l.filter (fun kv => allowedFields.contains kv.1)).map Prod.snd,
         pc + (l.filter (fun kv => allowedFields.contains kv.1)).length) := by
  induction l with
  | nil => intro flds vals pc; simp [buildUpdateFields, clausesFrom]
  | cons kv t ih =>
    intro flds vals pc
    by_cases h : kv.1 ∈ allowedFields
    · simp [buildUpdateFields, h, ih, List.filter_cons, clausesFrom,
        List.append_assoc, Prod.mk.injEq]
      omega
    · simp [buildUpdateFields, h, ih, List.filter_cons]

/-- Function `applyField` never writes `id` or `created_at`. -/
theorem applyField_id (u : User) (kv : String × JValue) :
    (applyField u kv).id = u.id ∧ (applyField u kv).createdAt = u.createdAt := by
  unfold applyField
  dsimp only
  split_ifs <;> exact ⟨rfl, rfl⟩

/-- Folding any assignment list leaves `id` and `created_at` alone. -/
theorem foldl_applyField_id (l : List (String × JValue)) :
    ∀ u : User, ((l.foldl applyField u)).id = u.id ∧
      ((l.foldl applyField u)).createdAt = u.createdAt := by
  induction l with
  | nil => intro u; exact ⟨rfl, rfl⟩
  | cons kv t ih =>
    intro u
    have h := applyField_id u kv
    simpa [List.foldl_cons, h.1, h.2] using
      ⟨(ih (applyField u kv)).1.trans h.1, (ih (applyField u kv)).2.trans h.2⟩

/-- C2: the dynamic update builder only references whitelisted field
names; every other supplied key (including `id` and `created_at`) never
appears in the generated statement; placeholders are assigned
sequentially from `$1` and correspond position-for-position to the
values array; the id filter parameter comes last with the highest
placeholder index (the `WHERE` clause uses `$(values.length + 1)`); and
a PATCH supplying `id: 999` leaves the target row's id unchanged. -/
theorem patch_update_builder_spec :
    (∀ updates : List (String × JValue),
       buildUpdate updates =
         (clausesFrom 1 (updates.filter (fun kv => allowedFields.contains kv.1)),
          (updates.filter (fun kv => allowedFields.contains kv.1)).map Prod.snd,
          (updates.filter (fun kv => allowedFields.contains kv.1)).length + 1)) ∧
    (∀ updates : List (String × JValue),
       ((updates.filter (fun kv => allowedFields.contains kv.1)).map Prod.fst).all
         (fun k => allowedFields.contains k) = true) ∧
    allowedFields.contains "id" = false ∧
    allowedFields.contains "created_at" = false ∧
    (∀ updates : List (String × JValue),
       (buildUpdate updates).2.2 = (buildUpdate updates).2.1.length + 1) ∧
    (∀ (u : User) (now : Nat) (updates : List (String × JValue)),
       ({ updates.foldl applyField u with updatedAt := now } : User).id = u.id) ∧
    patchQueryText
        (buildUpdate
          [("email", JValue.str "e"), ("id", JValue.num 999),
           ("name", JValue.str "n")]).1
        (buildUpdate
          [("email", JValue.str "e"), ("id", JValue.num 999),
           ("name", JValue.str "n")]).2.2 =
      "UPDATE users SET email = $1, name = $2, updated_at = CURRENT_TIMESTAMP WHERE id = $3 RETURNING *" ∧
    (processRequest 0 7 idPatchReq seeded).1.status = 200 ∧
    (processRequest 0 7 idPatchReq seeded).2.1.store.map
        (fun u => (u.id, u.name)) = [(1, "NewName")] := by
  refine ⟨?_, ?_, by decide, by decide, ?_, ?_, by decide, by decide, by decide⟩
  · intro updates
    have h := buildUpdateFields_eq updates [] [] 1
    simp only [buildUpdate, h, List.nil_append]
    exact congrArg _ (congrArg _ (Nat.add_comm 1 _))
  · intro updates
    rw [List.all_eq_true]
    rintro k hk
    obtain ⟨kv, hkv, rfl⟩ := List.mem_map.mp hk
    simpa using List.of_mem_filter hkv
  · intro updates
    have h := buildUpdateFields_eq updates [] [] 1
    simp only [buildUpdate, h, List.nil_append, List.length_map]
    omega
  · intro u now updates
    exact (foldl_applyField_id updates u).1

/-! ### Claim C4 — detector scan order and structured error -/

/-- C4: the detector scans body, then query, then params, stops at the
first matching string leaf, fails the request with a structured error
whose `field` is that leaf's dotted path (`address.street` in the
nested example), and lets the request continue exactly when no string
leaf of any of the three sources matches any pattern. -/
theorem detector_scan_order_and_first_match :
    (∀ b q p : JValue,
      sqlInjectionCheck b q p =
        ((allStrLeaves b q p).find? (fun pv => detectSQLInjection pv.2)).map
          Prod.fst) ∧
    (∀ b q p : JValue,
      (sqlInjectionCheck b q p = none ↔
        ∀ pv ∈ allStrLeaves b q p, detectSQLInjection pv.2 = false)) ∧
    sqlInjectionCheck
        (.obj (.cons "address"
          (.obj (.cons "street" (.str dropStr) .nil)) .nil))
        jempty jempty =
      some "address.street" ∧
    (∀ (req : Request) (st : AppState) (now uptime : Nat) (f : String),
      requestSizeRejects req.contentLength = false →
      sqlInjectionCheck (sanitizeTop (mongoSanitizeVal req.body))
          (sanitizeTop (mongoSanitizeVal req.query)) jempty = some f →
      (processRequest now uptime req st).1.status = 400 ∧
      (processRequest now uptime req st).1.body =
        .obj (.ofList
          [("error", .str "Potential SQL injection detected"),
           ("field", .str f)])) := by
  refine ⟨sqlInjectionCheck_eq, sqlInjectionCheck_none_iff, by decide, ?_⟩
  intro req st now uptime f hsz hf
  simp [processRequest, routeRequest, hsz, hf, JFields.ofList]

/-- Witness for C4: a nested body whose offending leaf sits at
`address.street`. -/
theorem detector_scan_order_and_first_match_witness :
    (processRequest 0 7
        ⟨.POST, ["api", "users"], "c", none,
         .obj (.cons "address"
           (.obj (.cons "street" (.str dropStr) .nil)) .nil), jempty⟩
        seeded).1.body =
      .obj (.ofList
        [("error", .str "Potential SQL injection detected"),
         ("field", .str "address.street")]) :=
  (detector_scan_order_and_first_match.2.2.2
    ⟨.POST, ["api", "users"], "c", none,
     .obj (.cons "address" (.obj (.cons "street" (.str dropStr) .nil)) .nil),
     jempty⟩
    seeded 0 7 "address.street" (by decide) (by decide)).2

/-! ### Claim C1 — `/health` and the limiters -/

/-- C1 (amended): `GET /health` is exempt from the API and strict
limiters and from field validation and the store (its processing
touches neither their counters nor the table, and performs no store
operation or validator run), and below the general quota it returns 200
with `status`, `timestamp`, `uptime`; but it does pass through the
general limiter, whose exhaustion rejects it with 429. -/
theorem health_subject_only_to_general_limiter
    (st : AppState) (now uptime : Nat) (cl : String) :
    (processRequest now uptime ⟨.GET, ["health"], cl, none, jempty, jempty⟩ st).2.1.api = st.api ∧
    (processRequest now uptime ⟨.GET, ["health"], cl, none, jempty, jempty⟩ st).2.1.strict = st.strict ∧
    (processRequest now uptime ⟨.GET, ["health"], cl, none, jempty, jempty⟩ st).2.1.store = st.store ∧
    (processRequest now uptime ⟨.GET, ["health"], cl, none, jempty, jempty⟩ st).2.1.nextId = st.nextId ∧
    (processRequest now uptime ⟨.GET, ["health"], cl, none, jempty, jempty⟩ st).2.2 = [] ∧
    (rlRejects generalLimiter (rlHit generalLimiter now cl st.general).1 = false →
      (processRequest now uptime ⟨.GET, ["health"], cl, none, jempty, jempty⟩ st).1.status = 200 ∧
      (processRequest now uptime ⟨.GET, ["health"], cl, none, jempty, jempty⟩ st).1.body =
        .obj (.ofList
          [("status", .str "OK"), ("timestamp", .num now), ("uptime", .num uptime)])) ∧
    (rlRejects generalLimiter (rlHit generalLimiter now cl st.general).1 = true →
      (processRequest now uptime ⟨.GET, ["health"], cl, none, jempty, jempty⟩ st).1.status = 429 ∧
      (processRequest now uptime ⟨.GET, ["health"], cl, none, jempty, jempty⟩ st).1.body =
        .obj (.ofList [("error", .str generalLimiter.message)])) := by
  rcases h : rlRejects generalLimiter (rlHit generalLimiter now cl st.general).1 <;>
    simp [processRequest, routeRequest, requestSizeRejects, h, jempty,
      mongoSanitizeVal, mongoSanitizeFields, sanitizeTop, sanitizeObjectFields,
      sqlInjectionCheck, checkObject, JValue.fieldsOf, checkObjectFields,
      JFields.ofList]

/-- Witness for C1's amended theorem: on a fresh state the quota is not
exhausted and `/health` returns 200. -/
theorem health_subject_only_to_general_limiter_witness :
    (processRequest 0 7 ⟨.GET, ["health"], "c", none, jempty, jempty⟩ fresh).1.status = 200 :=
  ((health_subject_only_to_general_limiter fresh 0 7 "c").2.2.2.2.2.1
    (by decide)).1

/-- C1 counterexample: the claim "no rate limiter ever rejects a
request to `/health`" is false — the general limiter is mounted before
the `/health` route, so the 101st `GET /health` of a client inside one
window is rejected with 429 (the repository's own rate-limiting tests
likewise expect general-limiter quota headers on `/health`
responses). -/
theorem health_rate_limited_after_quota :
    (runSeq 0 7 (List.replicate 101 healthReq) fresh).map
        (fun r => r.status) =
      List.replicate 100 200 ++ [429] ∧
    ((runSeq 0 7 (List.replicate 101 healthReq) fresh).map
        (fun r => (r.status, r.body.getStr? "error"))).getLast? =
      some (429,
        some "Too many requests from this IP, please try again after 15 minutes") := by
  constructor <;> decide

/-! ### Claim C5 — the sensitive rate limiter -/

/-- C5: the strict limiter allows 5 requests per 15-minute window; it
is attached exactly to the POST, PUT, PATCH and DELETE routes of the
users router and to neither GET route; its counter advances on every
request it sees regardless of the eventual response; and a client
issuing six sensitive operations in one window has the first five
processed (200 here) and the sixth rejected 429 with remaining 0 —
likewise when all six fail their own validation (400s), showing failed
requests count toward the quota. -/
theorem strict_limiter_sensitive_ops_quota :
    strictLimiter.max = 5 ∧
    strictLimiter.windowMs = 15 * 60 * 1000 ∧
    (userRoutes.all (fun r =>
      r.middlewares.contains MW.strictLimiter =
        [Method.POST, Method.PUT, Method.PATCH, Method.DELETE].contains r.method)) =
      true ∧
    (∀ (now : Nat) (cl : String) (c : Ctx),
      (match runMW now cl MW.strictLimiter c with
       | .ok c2 => c2.st.strict
       | .error r => r.2.1.strict) =
        (rlHit strictLimiter now cl c.st.strict).2) ∧
    (runSeq 0 7 (List.replicate 6 patchReq) seeded).map (fun r => r.status) =
      [200, 200, 200, 200, 200, 429] ∧
    ((runSeq 0 7 (List.replicate 6 patchReq) seeded).getLast?).map
        (fun r =>
          (r.headers.contains ("RateLimit-Remaining", "0"),
           r.body.getStr? "error")) =
      some (true, some strictLimiter.message) ∧
    (runSeq 0 7 (List.replicate 6 emptyPatchReq) seeded).map (fun r => r.status) =
      [400, 400, 400, 400, 400, 429] := by
  refine ⟨rfl, rfl, by decide, ?_, by decide, by decide, by decide⟩
  intro now cl c
  rcases h : rlRejects strictLimiter (rlHit strictLimiter now cl c.st.strict).1 <;>
    simp [runMW, h]

/-! ### Claim C8 — PATCH with no recognized field -/

/-- Setting a key that is present does not change an object's key
list. -/
theorem JFields.set_keys_of_mem : (fs : JFields) → (k : String) → (nv : JValue) →
    (fs.get? k).isSome = true → (fs.set k nv).keys = fs.keys
  | .nil, k, nv => by intro h; simp [JFields.get?] at h
  | .cons kk vv t, k, nv => by
    intro h
    by_cases hk : kk = k
    · simp [JFields.set, hk, JFields.keys, JFields.entries]
    · simp only [JFields.get?, hk, if_false] at h
      have ih := JFields.set_keys_of_mem t k nv h
      simp [JFields.set, hk, JFields.keys, JFields.entries] at ih ⊢
      exact ih

/-- A chain that is optional (or whole-body) cannot add or remove body
keys: it is either skipped, writes nothing back, or overwrites a key it
read (hence one that is present). -/
theorem FieldChain.run_body_keys (c : FieldChain) (body params : JValue)
    (h : c.optional = true ∨ c.field = "") :
    ((c.run body params).2.1).fieldsOf.keys = body.fieldsOf.keys := by
  unfold FieldChain.run
  by_cases hskip : (c.optional && (c.value body params).isNone) = true
  · simp [hskip]
  · simp only [hskip, if_false]
    by_cases hf : c.field = ""
    · simp [hf]
    · cases hr : (runSteps c.steps (c.value body params)).2 with
      | none => simp [hf, hr]
      | some nv =>
        cases hloc : c.loc with
        | params => simp [hf, hr, hloc]
        | body =>
          simp only [hf, hr, hloc, if_false]
          rcases h with hopt | hfe
          · have hv : (c.value body params).isNone = false := by
              rcases hiv : (c.value body params).isNone with _ | _
              · rfl
              · exact absurd (by simp [hopt, hiv]) hskip
            have hsome : (body.fieldsOf.get? c.field).isSome = true := by
              have hvv : c.value body params = body.fieldsOf.get? c.field := by
                simp [FieldChain.value, hf, hloc, JValue.get?]
              rw [hvv] at hv
              cases hcase : body.fieldsOf.get? c.field with
              | none => rw [hcase] at hv; simp at hv
              | some _ => rfl
            exact JFields.set_keys_of_mem body.fieldsOf c.field nv hsome
          · exact absurd hfe hf

/-- A list of chains each optional or whole-body preserves the body's
key list. -/
theorem runChains_body_keys :
    ∀ (cs : List FieldChain),
      (∀ c ∈ cs, c.optional = true ∨ c.field = "") →
      ∀ b p : JValue, ((runChains cs b p).2.1).fieldsOf.keys = b.fieldsOf.keys
  | [], _, _, _ => rfl
  | c :: t, h, b, p => by
    simp only [runChains]
    rw [runChains_body_keys t (fun cc hc => h cc (List.mem_cons_of_mem c hc)) _ _,
      FieldChain.run_body_keys c b p (h c (List.mem_cons_self c t))]

/-- Running `runChains` over an append runs the suffix from the prefix's final
request objects and concatenates the error lists. -/
theorem runChains_append :
    ∀ (xs ys : List FieldChain) (b p : JValue),
      runChains (xs ++ ys) b p =
        ((runChains xs b p).1 ++
           (runChains ys (runChains xs b p).2.1 (runChains xs b p).2.2).1,
         (runChains ys (runChains xs b p).2.1 (runChains xs b p).2.2).2)
  | [], ys, b, p => by simp [runChains]
  | x :: t, ys, b, p => by
    simp only [List.cons_append, runChains, List.append_eq]
    rw [runChains_append t ys]
    simp [List.append_assoc]

/-- The PATCH handler's `No valid fields to update` branch is dead
code: any body that passes `validateUserUpdate` (which runs first on
every PATCH route) makes the update builder produce at least one
clause, because the validator's whole-body check demands a recognized
key and the optional field chains never add or remove keys. -/
theorem patch_no_valid_fields_branch_unreachable
    (b p : JValue) (st : AppState) (hdrs : List (String × String))
    (ev : List Event) (c2 : Ctx)
    (h : runValidator "validateUserUpdate" validateUserUpdate
      ⟨b, p, st, hdrs, ev⟩ = .ok c2) :
    (buildUpdate c2.body.fieldsOf.entries).1 ≠ [] := by
  simp only [runValidator] at h
  rcases hemp : (runChains validateUserUpdate b p).1.isEmpty with _ | _
  · rw [hemp] at h
    simp at h
  · rw [hemp] at h
    simp only [eq_self_iff_true, if_true] at h
    injection h with h2
    have hbody : c2.body = (runChains validateUserUpdate b p).2.1 := by
      rw [← h2]
    have hk6 : ((runChains updateFieldChains b p).2.1).fieldsOf.keys =
        b.fieldsOf.keys :=
      runChains_body_keys updateFieldChains (by decide) b p
    rw [validateUserUpdate, runChains_append] at hemp hbody
    set b6 := (runChains updateFieldChains b p).2.1 with hb6
    set p6 := (runChains updateFieldChains b p).2.2 with hp6
    have hlast : runChains [atLeastOneField] b6 p6 =
        ((atLeastOneField.run b6 p6).1, (atLeastOneField.run b6 p6).2) := by
      simp [runChains]
    have hrun : atLeastOneField.run b6 p6 =
        (List.map (fun mv => FieldError.mk "" mv.1 mv.2)
          (if (!(b6.fieldsOf.keys.filter
              (fun k => allowedFields.contains k)).isEmpty) = true
           then []
           else [("At least one field must be provided for update",
             some b6)]),
         b6, p6) := rfl
    have hchk :
        (b6.fieldsOf.keys.filter (fun k => allowedFields.contains k)).isEmpty =
          false := by
      rcases hfil :
          (b6.fieldsOf.keys.filter (fun k => allowedFields.contains k)).isEmpty with
          _ | _
      · rfl
      · rw [hlast, hrun, hfil] at hemp
        simp at hemp
    have hbody6 : c2.body = b6 := by
      rw [hbody, hlast, hrun]
    obtain ⟨k, hkrest⟩ :
        ∃ k rest, b6.fieldsOf.keys.filter (fun k => allowedFields.contains k) =
          k :: rest := by
      rcases hfil :
          b6.fieldsOf.keys.filter (fun k => allowedFields.contains k) with _ | ⟨k, rest⟩
      · rw [hfil] at hchk; simp at hchk
      · exact ⟨k, rest, rfl⟩
    obtain ⟨rest, hfil⟩ := hkrest
    have hkmem : k ∈ b6.fieldsOf.keys ∧ allowedFields.contains k = true := by
      have : k ∈ b6.fieldsOf.keys.filter (fun k => allowedFields.contains k) := by
        rw [hfil]; exact List.mem_cons_self k rest
      exact ⟨List.mem_of_mem_filter this, List.of_mem_filter this⟩
    obtain ⟨kv, hkv, hkveq⟩ := List.mem_map.mp hkmem.1
    have hkvfil : kv ∈ b6.fieldsOf.entries.filter
        (fun kv => allowedFields.contains kv.1) :=
      List.mem_filter.mpr ⟨hkv, by rw [hkveq]; exact hkmem.2⟩
    rw [hbody6, buildUpdate, buildUpdateFields_eq, List.nil_append]
    rcases hfe : b6.fieldsOf.entries.filter (fun kv => allowedFields.contains kv.1)
        with _ | ⟨kv0, t0⟩
    · rw [hfe] at hkvfil; simp at hkvfil
    · rw [hfe]
      simp [clausesFrom]

/-- C8 (code behavior at the claimed inputs): a PATCH with an empty
body, or whose body holds only unrecognized keys, is rejected with
status 400 — but by `validateUserUpdate`'s at-least-one-field check,
whose response says `Validation failed` with detail `At least one field
must be provided for update`, never the handler's
`No valid fields to update` message that the spec and the repository's
own e2e tests expect; no store read or write is performed and the
table is unchanged. -/
theorem empty_patch_rejected_by_validator_not_handler :
    (processRequest 0 7 emptyPatchReq seeded).1.status = 400 ∧
    (processRequest 0 7 emptyPatchReq seeded).1.body.getStr? "error" =
      some "Validation failed" ∧
    (processRequest 0 7 emptyPatchReq seeded).1.body.get? "details" =
      some (.arr (.cons
        (errToJ ⟨"", "At least one field must be provided for update",
          some jempty⟩) .nil)) ∧
    ((processRequest 0 7 emptyPatchReq seeded).1.body.getStr? "error" =
      some "No valid fields to update") = False ∧
    ((processRequest 0 7 emptyPatchReq seeded).2.2.filter Event.isDb) = [] ∧
    (processRequest 0 7 emptyPatchReq seeded).2.1.store = seeded.store ∧
    (processRequest 0 7
        ⟨.PATCH, ["api", "users", "1"], "c", none,
         .obj (.ofList [("id", .num 999), ("created_at", .num 0)]), jempty⟩
        seeded).1.status = 400 ∧
    (processRequest 0 7
        ⟨.PATCH, ["api", "users", "1"], "c", none,
         .obj (.ofList [("id", .num 999), ("created_at", .num 0)]), jempty⟩
        seeded).1.body.getStr? "error" = some "Validation failed" ∧
    ((processRequest 0 7
        ⟨.PATCH, ["api", "users", "1"], "c", none,
         .obj (.ofList [("id", .num 999), ("created_at", .num 0)]), jempty⟩
        seeded).2.2.filter Event.isDb) = [] ∧
    (∀ (b p : JValue) (st : AppState) (hdrs : List (String × String))
       (ev : List Event) (c2 : Ctx),
      runValidator "validateUserUpdate" validateUserUpdate
          ⟨b, p, st, hdrs, ev⟩ = .ok c2 →
      (buildUpdate c2.body.fieldsOf.entries).1 ≠ []) := by
  refine ⟨by decide, by decide, by decide, ?_, by decide, by decide, by decide,
    by decide, by decide, patch_no_valid_fields_branch_unreachable⟩
  simp only [eq_iff_iff, iff_false]
  decide

/-- Witness for C8's dead-branch conjunct: a PATCH body that passes the
validator yields a nonempty clause list in the builder. -/
theorem empty_patch_rejected_by_validator_not_handler_witness :
    (buildUpdate
        ((Ctx.mk (.obj (.ofList [("name", JValue.str "NewName")])) jempty fresh
          [] [.validation "validateUserUpdate"]).body).fieldsOf.entries).1 ≠ [] :=
  empty_patch_rejected_by_validator_not_handler.2.2.2.2.2.2.2.2.2
    (.obj (.ofList [("name", JValue.str "NewName")])) jempty fresh [] []
    (Ctx.mk (.obj (.ofList [("name", JValue.str "NewName")])) jempty fresh
      [] [.validation "validateUserUpdate"])
    rfl

/-! ### Claim C6 — the content sanitizer -/

/-- The tag stripper never emits a `<`. -/
theorem stripTagsAux_no_lt : ∀ (flag : Bool) (l : List Char), '<' ∉ stripTagsAux flag l := by
  intro flag l
  induction l generalizing flag with
  | nil => cases flag <;> simp [stripTagsAux]
  | cons c t ih =>
    cases flag with
    | false =>
      by_cases h : c = '<'
      · simpa [stripTagsAux, h] using ih true
      · simp only [stripTagsAux, if_neg h, List.mem_cons, not_or]
        exact ⟨fun hh => h hh.symm, ih false⟩
    | true =>
      by_cases h : c = '>'
      · simpa [stripTagsAux, h] using ih false
      · simpa [stripTagsAux, h] using ih true

/-- A substring occurrence puts the substring's head in the list. -/
theorem containsL_head_mem (c : Char) (p l : List Char)
    (h : containsL (c :: p) l = true) : c ∈ l := by
  induction l with
  | nil => simp [containsL] at h
  | cons d t ih =>
    simp only [containsL, Bool.or_eq_true] at h
    rcases h with h | h
    · simp only [isPrefixOfL, Bool.and_eq_true, decide_eq_true_eq] at h
      exact h.1 ▸ List.mem_cons_self d t
    · exact List.mem_cons_of_mem d (ih h)

/-- No sanitized string contains `<script` (it contains no `<` at all). -/
theorem dompurify_no_script (s : String) :
    containsSub "<script" (dompurifySanitize s) = false := by
  cases h : containsSub "<script" (dompurifySanitize s) with
  | false => rfl
  | true =>
    exfalso
    have hm : '<' ∈ (dompurifySanitize s).data :=
      containsL_head_mem '<' "script".data (dompurifySanitize s).data h
    exact stripTagsAux_no_lt false s.data hm

mutual
/-- Sanitizing an object maps every string leaf, wherever nested,
through the DOMPurify model, preserving paths and order. -/
theorem strLeavesFields_sanitize : (path : String) → (fs : JFields) →
    strLeavesFields path (sanitizeObjectFields fs) =
      (strLeavesFields path fs).map (fun pv => (pv.1, dompurifySanitize pv.2))
  | _, .nil => rfl
  | path, .cons k v t => by
    cases v with
    | str s =>
      simp [sanitizeObjectFields, sanitizeValue, strLeavesFields,
        strLeavesFields_sanitize path t]
    | obj fs =>
      simp [sanitizeObjectFields, sanitizeValue, strLeavesFields,
        strLeavesFields_sanitize (extendPath path k) fs,
        strLeavesFields_sanitize path t]
    | arr xs =>
      simp [sanitizeObjectFields, sanitizeValue, strLeavesFields,
        strLeavesArr_sanitize (extendPath path k) 0 xs,
        strLeavesFields_sanitize path t]
    | num n =>
      simp [sanitizeObjectFields, sanitizeValue, strLeavesFields,
        strLeavesFields_sanitize path t]
    | jbool b =>
      simp [sanitizeObjectFields, sanitizeValue, strLeavesFields,
        strLeavesFields_sanitize path t]
    | jnull =>
      simp [sanitizeObjectFields, sanitizeValue, strLeavesFields,
        strLeavesFields_sanitize path t]

/-- Array counterpart of `strLeavesFields_sanitize`. -/
theorem strLeavesArr_sanitize : (path : String) → (i : Nat) → (xs : JArr) →
    strLeavesArr path i (sanitizeArrElems xs) =
      (strLeavesArr path i xs).map (fun pv => (pv.1, dompurifySanitize pv.2))
  | _, _, .nil => rfl
  | path, i, .cons v t => by
    cases v with
    | str s =>
      simp [sanitizeArrElems, sanitizeValue, strLeavesArr,
        strLeavesArr_sanitize path (i + 1) t]
    | obj fs =>
      simp [sanitizeArrElems, sanitizeValue, strLeavesArr,
        strLeavesFields_sanitize (extendPath path (toString i)) fs,
        strLeavesArr_sanitize path (i + 1) t]
    | arr xs =>
      simp [sanitizeArrElems, sanitizeValue, strLeavesArr,
        strLeavesArr_sanitize (extendPath path (toString i)) 0 xs,
        strLeavesArr_sanitize path (i + 1) t]
    | num n =>
      simp [sanitizeArrElems, sanitizeValue, strLeavesArr,
        strLeavesArr_sanitize path (i + 1) t]
    | jbool b =>
      simp [sanitizeArrElems, sanitizeValue, strLeavesArr,
        strLeavesArr_sanitize path (i + 1) t]
    | jnull =>
      simp [sanitizeArrElems, sanitizeValue, strLeavesArr,
        strLeavesArr_sanitize path (i + 1) t]
end

/-- Text outside any markup passes through the stripper unchanged. -/
theorem stripTagsAux_false_append (a : List Char) :
    ∀ l, (∀ ch ∈ a, ch ≠ '<' ∧ ch ≠ '>') →
      stripTagsAux false (a ++ l) = a ++ stripTagsAux false l := by
  induction a with
  | nil => intro l _; rfl
  | cons c t ih =>
    intro l h
    have hc := h c (List.mem_cons_self c t)
    simp only [List.cons_append, stripTagsAux, if_neg hc.1, List.append_eq]
    rw [ih l (fun ch hch => h ch (List.mem_cons_of_mem c hch))]

/-- Inside a tag, everything up to the closing `>` is dropped. -/
theorem stripTagsAux_true_append (b : List Char) :
    ∀ l, (∀ ch ∈ b, ch ≠ '>') →
      stripTagsAux true (b ++ '>' :: l) = stripTagsAux false l := by
  induction b with
  | nil => intro l _; simp [stripTagsAux]
  | cons c t ih =>
    intro l h
    have hc := h c (List.mem_cons_self c t)
    simp only [List.cons_append, stripTagsAux, if_neg hc]
    exact ih l (fun ch hch => h ch (List.mem_cons_of_mem c hch))

/-- Markup-free text is a fixed point of the stripper. -/
theorem stripTagsAux_false_id (l : List Char)
    (h : ∀ ch ∈ l, ch ≠ '<' ∧ ch ≠ '>') : stripTagsAux false l = l := by
  simpa [stripTagsAux] using stripTagsAux_false_append l [] h

/-- Sanitizing `a<script>b</script>c` keeps exactly the surrounding
text (and the script element's text content) for markup-free
`a`, `b`, `c`. -/
theorem dompurify_script_wrap (a b c : String)
    (ha : ∀ ch ∈ a.data, ch ≠ '<' ∧ ch ≠ '>')
    (hb : ∀ ch ∈ b.data, ch ≠ '<' ∧ ch ≠ '>')
    (hc : ∀ ch ∈ c.data, ch ≠ '<' ∧ ch ≠ '>') :
    dompurifySanitize (a ++ "<script>" ++ b ++ "</script>" ++ c) = a ++ b ++ c := by
  apply String.ext
  have e : (a ++ "<script>" ++ b ++ "</script>" ++ c).data =
      a.data ++ ('<' :: ("script".data ++ '>' ::
        (b.data ++ '<' :: ("/script".data ++ '>' :: c.data)))) := by
    simp only [String.data_append, List.append_assoc]
    rfl
  show stripTagsAux false (a ++ "<script>" ++ b ++ "</script>" ++ c).data = _
  rw [e, String.data_append, String.data_append,
    stripTagsAux_false_append a.data _ ha]
  have e2 : stripTagsAux false ('<' :: ("script".data ++ '>' ::
      (b.data ++ '<' :: ("/script".data ++ '>' :: c.data)))) =
      stripTagsAux true ("script".data ++ '>' ::
        (b.data ++ '<' :: ("/script".data ++ '>' :: c.data))) := by
    simp [stripTagsAux]
  rw [e2, stripTagsAux_true_append "script".data _ (by decide),
    stripTagsAux_false_append b.data _ hb]
  have e3 : stripTagsAux false ('<' :: ("/script".data ++ '>' :: c.data)) =
      stripTagsAux true ("/script".data ++ '>' :: c.data) := by
    simp [stripTagsAux]
  rw [e3, stripTagsAux_true_append "/script".data _ (by decide),
    stripTagsAux_false_id c.data hc, List.append_assoc]

/-- C6: sanitized strings never contain `<script`; the spec's concrete
example strips to `alert(1)John`, which retains `John`; for markup-free
surroundings the text around (and inside) a script element survives
exactly; and the sanitizer acts on every string leaf at any nesting
depth while leaving numbers, booleans and null unchanged. -/
theorem xss_sanitizer_script_stripped :
    (∀ s : String, containsSub "<script" (dompurifySanitize s) = false) ∧
    dompurifySanitize "<script>alert(1)</script>John" = "alert(1)John" ∧
    containsSub "John" (dompurifySanitize "<script>alert(1)</script>John") = true ∧
    (∀ a b c : String,
      (∀ ch ∈ a.data, ch ≠ '<' ∧ ch ≠ '>') →
      (∀ ch ∈ b.data, ch ≠ '<' ∧ ch ≠ '>') →
      (∀ ch ∈ c.data, ch ≠ '<' ∧ ch ≠ '>') →
      dompurifySanitize (a ++ "<script>" ++ b ++ "</script>" ++ c) = a ++ b ++ c) ∧
    (∀ (path : String) (fs : JFields),
      strLeavesFields path (sanitizeObjectFields fs) =
        (strLeavesFields path fs).map (fun pv => (pv.1, dompurifySanitize pv.2))) ∧
    (∀ n : Int, sanitizeValue (.num n) = .num n) ∧
    (∀ bo : Bool, sanitizeValue (.jbool bo) = .jbool bo) ∧
    sanitizeValue .jnull = .jnull ∧
    (∀ s : String, sanitizeValue (.str s) = .str (dompurifySanitize s)) ∧
    sanitizeTop
        (.obj (.cons "name" (.str "<script>alert(1)</script>John") .nil)) =
      .obj (.cons "name" (.str "alert(1)John") .nil) := by
  refine ⟨dompurify_no_script, by decide, by decide, dompurify_script_wrap,
    strLeavesFields_sanitize, fun _ => rfl, fun _ => rfl, rfl, fun _ => rfl,
    by decide⟩

/-- Witness for C6: a concrete markup-free wrap. -/
theorem xss_sanitizer_script_stripped_witness :
    dompurifySanitize ("x" ++ "<script>" ++ "alert(1)" ++ "</script>" ++ "John") =
      "x" ++ "alert(1)" ++ "John" :=
  xss_sanitizer_script_stripped.2.2.2.1 "x" "alert(1)" "John" (by decide)
    (by decide) (by decide)

/-! ### Claim C7 — error collection in the validators -/

/-- C7: `validate` turns the collected chain errors into one 400 whose
`details` lists every failing check — field, message, rejected value —
and passes the request on exactly when no chain failed; on a body
failing several chains, all of their errors appear, in chain order
(name, email, phone, address, city, country): nothing short-circuits at
the first failing field. -/
theorem validators_collect_every_failing_field :
    (∀ (body params : JValue) (st : AppState) (hdrs : List (String × String))
       (ev : List Event),
      ((runChains validateUser body params).1 = [] →
        runValidator "validateUser" validateUser ⟨body, params, st, hdrs, ev⟩ =
          .ok ⟨(runChains validateUser body params).2.1,
               (runChains validateUser body params).2.2, st, hdrs,
               ev ++ [.validation "validateUser"]⟩) ∧
      ((runChains validateUser body params).1 ≠ [] →
        runValidator "validateUser" validateUser ⟨body, params, st, hdrs, ev⟩ =
          .error (⟨400, validationFailedBody (runChains validateUser body params).1,
            hdrs⟩, st, ev ++ [.validation "validateUser"]))) ∧
    (∀ errs : List FieldError,
      (validationFailedBody errs).get? "details" =
        some (.arr (.ofList (errs.map errToJ))) ∧
      (validationFailedBody errs).getStr? "error" = some "Validation failed") ∧
    (runChains validateUser exBadBody jempty).1.map (fun e => (e.path, e.msg)) =
      [("name", "Name must be between 2 and 100 characters"),
       ("email", "Must be a valid email address"),
       ("email", "Email address too long"),
       ("email", "Email contains suspicious content"),
       ("phone", "Must be a valid Israeli phone number (+9725xxxxxxxx)"),
       ("phone", "Phone number must be exactly 13 characters"),
       ("address", "Address must be between 5 and 255 characters"),
       ("address", "Address contains invalid characters"),
       ("city", "City must be between 2 and 100 characters"),
       ("city",
        "City can only contain letters, spaces, dots, hyphens, and Hebrew/Arabic characters"),
       ("country", "Country must be between 2 and 100 characters"),
       ("country",
        "Country can only contain letters, spaces, dots, hyphens, and Hebrew/Arabic characters")] := by
  refine ⟨?_, fun errs => ⟨rfl, rfl⟩, by decide⟩
  intro body params st hdrs ev
  constructor
  · intro h
    simp [runValidator, h]
  · intro h
    simp [runValidator, List.isEmpty_iff, h]

/-- Witness for C7: the multi-failure body is rejected with all its
errors. -/
theorem validators_collect_every_failing_field_witness :
    runValidator "validateUser" validateUser ⟨exBadBody, jempty, fresh, [], []⟩ =
      .error (⟨400, validationFailedBody (runChains validateUser exBadBody jempty).1,
        []⟩, fresh, [] ++ [.validation "validateUser"]) :=
  ((validators_collect_every_failing_field.1 exBadBody jempty fresh [] []).2
    (by decide))

/-! ### Claim C3 — rejection before the store -/

/-- C3 counterexample: a request whose field matches the
reserved-keyword-plus-terminator pattern but declares a 20MB
content length is rejected by the size guard with 413, not with the
400 `SuspiciousContent` error the claim promises for every such
request. -/
theorem injection_request_rejected_as_payload_too_large :
    detectSQLInjection dropStr = true ∧
    (strLeavesFields "" bigReq.body.fieldsOf).any
        (fun pv => detectSQLInjection pv.2) = true ∧
    (processRequest 0 7 bigReq seeded).1.status = 413 ∧
    ((processRequest 0 7 bigReq seeded).1.status = 400) = False ∧
    (processRequest 0 7 bigReq seeded).1.body.getStr? "error" =
      some "Request entity too large" := by
  refine ⟨by decide, by decide, by decide, ?_, by decide⟩
  simp only [eq_iff_iff, iff_false]
  decide

/-- C3 (amended): any request within the declared size limit whose
sanitized body or query holds a string leaf matching the injection
patterns is rejected with 400 `Potential SQL injection detected`
before any store operation or validator run, the whole application
state is untouched, and a table that had rows still has them. -/
theorem suspicious_content_rejected_before_store
    (req : Request) (st : AppState) (now uptime : Nat)
    (hsz : requestSizeRejects req.contentLength = false)
    (hsome : (sqlInjectionCheck (sanitizeTop (mongoSanitizeVal req.body))
        (sanitizeTop (mongoSanitizeVal req.query)) jempty).isSome = true) :
    (processRequest now uptime req st).1.status = 400 ∧
    (processRequest now uptime req st).1.body.getStr? "error" =
      some "Potential SQL injection detected" ∧
    (processRequest now uptime req st).2.1 = st ∧
    (processRequest now uptime req st).2.2 = [] ∧
    (st.store ≠ [] → (processRequest now uptime req st).2.1.store ≠ []) := by
  obtain ⟨f, hf⟩ := Option.isSome_iff_exists.mp hsome
  simp [processRequest, routeRequest, hsz, hf, JValue.getStr?, JValue.get?,
    JValue.fieldsOf, JFields.get?, JFields.ofList]

/-- Witness for C3's amended theorem at the spec's own payload. -/
theorem suspicious_content_rejected_before_store_witness :
    (processRequest 0 7 dropPost seeded).1.status = 400 ∧
    (processRequest 0 7 dropPost seeded).2.1 = seeded ∧
    (processRequest 0 7 dropPost seeded).2.2 = [] :=
  ⟨(suspicious_content_rejected_before_store dropPost seeded 0 7 (by decide)
      (by decide)).1,
   (suspicious_content_rejected_before_store dropPost seeded 0 7 (by decide)
      (by decide)).2.2.1,
   (suspicious_content_rejected_before_store dropPost seeded 0 7 (by decide)
      (by decide)).2.2.2.1⟩

/-! ### Claim C9 — bare quotes always rejected -/

/-- C9: the quote pattern matches bare quotes, so any string containing
a single or double quote anywhere is flagged; a request whose
(sanitized) sources hold such a leaf leaves all state untouched and
performs no validator run or store operation — within the size limit it
is the detector that rejects it with 400 — and in particular the name
`O'Brien` can never reach validation or the store. -/
theorem quote_in_any_leaf_rejected :
    (∀ s : String, (s.data.contains sq || s.data.contains dq) = true →
      detectSQLInjection s = true) ∧
    (∀ b q p : JValue,
      (allStrLeaves b q p).any
          (fun pv => pv.2.data.contains sq || pv.2.data.contains dq) = true →
      (sqlInjectionCheck b q p).isSome = true) ∧
    (∀ (req : Request) (st : AppState) (now uptime : Nat),
      (allStrLeaves (sanitizeTop (mongoSanitizeVal req.body))
          (sanitizeTop (mongoSanitizeVal req.query)) jempty).any
        (fun pv => pv.2.data.contains sq || pv.2.data.contains dq) = true →
      (processRequest now uptime req st).2.1 = st ∧
      (processRequest now uptime req st).2.2 = [] ∧
      (requestSizeRejects req.contentLength = false →
        (processRequest now uptime req st).1.status = 400 ∧
        (processRequest now uptime req st).1.body.getStr? "error" =
          some "Potential SQL injection detected")) ∧
    detectSQLInjection obrien = true ∧
    dompurifySanitize obrien = obrien ∧
    (processRequest 0 7 obrienPost seeded).1.status = 400 ∧
    (processRequest 0 7 obrienPost seeded).1.body.get? "field" =
      some (.str "name") ∧
    (processRequest 0 7 obrienPost seeded).2.2 = [] := by
  have h1 : ∀ s : String, (s.data.contains sq || s.data.contains dq) = true →
      detectSQLInjection s = true := by
    intro s h
    simp only [Bool.or_eq_true] at h
    simp only [detectSQLInjection, Bool.or_eq_true]
    exact Or.inr h
  have h2 : ∀ b q p : JValue,
      (allStrLeaves b q p).any
          (fun pv => pv.2.data.contains sq || pv.2.data.contains dq) = true →
      (sqlInjectionCheck b q p).isSome = true := by
    intro b q p h
    obtain ⟨pv, hmem, hq⟩ := List.any_eq_true.mp h
    have hfind : ((allStrLeaves b q p).find?
        (fun pv => detectSQLInjection pv.2)).isSome :=
      List.find?_isSome.mpr ⟨pv, hmem, h1 pv.2 hq⟩
    rw [sqlInjectionCheck_eq]
    simpa using hfind
  refine ⟨h1, h2, ?_, by decide, by decide, by decide, by decide, by decide⟩
  intro req st now uptime h
  have hsome := h2 _ _ _ h
  obtain ⟨f, hf⟩ := Option.isSome_iff_exists.mp hsome
  by_cases hsz : requestSizeRejects req.contentLength = true
  · simp [processRequest, hsz]
  · have hsz' : requestSizeRejects req.contentLength = false := by
      simpa using hsz
    simp [processRequest, routeRequest, hsz', hf, JValue.getStr?, JValue.get?,
      JValue.fieldsOf, JFields.get?, JFields.ofList]

/-- Witness for C9 at the name `O'Brien`. -/
theorem quote_in_any_leaf_rejected_witness :
    detectSQLInjection obrien = true ∧
    (processRequest 0 7 obrienPost seeded).2.1 = seeded :=
  ⟨quote_in_any_leaf_rejected.1 obrien (by decide),
   (quote_in_any_leaf_rejected.2.2.1 obrienPost seeded 0 7 (by decide)).1⟩

/-! ### Claim C10 — the request size guard -/

/-- A string `parseInt` accepts is nonempty (hence truthy). -/
theorem parseIntJS_some_truthy (s : String) (n : Int)
    (h : parseIntJS s = some n) : strTruthy s = true := by
  cases hd : s.data with
  | nil => simp [parseIntJS, hd] at h
  | cons c t => simp [strTruthy, hd]

/-- C10: the size guard decides solely from the declared
`Content-Length` header — it rejects, with 413 and untouched state,
exactly when the header is present and parses to an integer exceeding
10MB; a request without the header is handed to the rest of the
pipeline unchanged, whatever its body holds. -/
theorem size_guard_decides_from_content_length_only :
    (∀ cl : Option String, requestSizeRejects cl = true ↔
      ∃ s n, cl = some s ∧ parseIntJS s = some n ∧ (maxRequestSize : Int) < n) ∧
    requestSizeRejects none = false ∧
    (∀ (req : Request) (st : AppState) (now uptime : Nat),
      req.contentLength = none →
      processRequest now uptime req st = routeRequest now uptime req st) ∧
    (∀ (req : Request) (st : AppState) (now uptime : Nat),
      requestSizeRejects req.contentLength = true →
      (processRequest now uptime req st).1.status = 413 ∧
      (processRequest now uptime req st).1.body =
        .obj (.ofList
          [("error", .str "Request entity too large"),
           ("maxSize", .str "10MB")]) ∧
      (processRequest now uptime req st).2.1 = st ∧
      (processRequest now uptime req st).2.2 = []) ∧
    requestSizeRejects (some "20971520") = true ∧
    requestSizeRejects (some "10485760") = false ∧
    requestSizeRejects (some "garbage") = false := by
  refine ⟨?_, rfl, ?_, ?_, by decide, by decide, by decide⟩
  · intro cl
    cases cl with
    | none => simp [requestSizeRejects]
    | some s =>
      simp only [requestSizeRejects]
      constructor
      · intro h
        cases hp : parseIntJS s with
        | none => rw [hp] at h; simp at h
        | some n =>
          rw [hp] at h
          simp only [Bool.and_eq_true, decide_eq_true_eq] at h
          exact ⟨s, n, rfl, hp, h.2⟩
      · rintro ⟨s', n, hs, hp, hn⟩
        injection hs with hseq
        subst hseq
        rw [hp, parseIntJS_some_truthy s n hp]
        simpa using hn
  · intro req st now uptime h
    simp [processRequest, h, requestSizeRejects]
  · intro req st now uptime h
    simp [processRequest, h]

/-- Witness for C10: an oversized declaration rejects, an absent header
routes on. -/
theorem size_guard_decides_from_content_length_only_witness :
    requestSizeRejects (some "20971520") = true ∧
    processRequest 0 7 healthReq fresh = routeRequest 0 7 healthReq fresh :=
  ⟨(size_guard_decides_from_content_length_only.1 (some "20971520")).mpr
      ⟨"20971520", 20971520, rfl, by decide, by decide⟩,
   size_guard_decides_from_content_length_only.2.2.1 healthReq fresh 0 7 rfl⟩

end PostgresApi
